import Mathlib

/-!
# logsaw: fields, formats, the merge walk, the scoped registry and the log

A shallow embedding of `include/logsaw.h`.

Conventions of the embedding.

* A Lean `Char` stands for one C++ `char`, a Lean `String` for a sequence of them.
* A template instantiation that does not compile is the result `none`.
* `int` template arguments that are used as a length (`indent<width>`,
  `scoped_indent<width>`) are natural numbers: `std::string(width, ' ')` builds no
  string for a negative `width`.
* The `std::stringstream` of `log::add` is a function-local static: it is one stream per
  instantiation of `add`, and its width and adjustment survive from one call of that
  instantiation to the next. `log.add` takes the state of that stream on entry and returns
  the state it leaves.
* Formats are declared over the ordinary field types (`text`, `number`, `separator`,
  `timestamp`, `indent`, `align::width`); the scoped field types live in the registry.
-/

namespace logsaw

/-! ## Output streams -/

/-- The `adjustfield` part of the format flags of a stream; a stream starts with none set. -/
inductive fmtflags where
  | unset
  | left
  | right
  deriving DecidableEq, Repr

/-- What the library can observe of a `std::ostream`: the characters written so far, the
pending field width and the adjustment flag. The fill character is never changed by the
library and is the space. -/
structure ostream where
  str : String
  width : Int
  adjustfield : fmtflags
  deriving DecidableEq, Repr

/-- A stream as `std::stringstream` constructs it. -/
def ostream.fresh : ostream := ⟨"", 0, fmtflags.unset⟩

/-- The text `std::string(n, ' ')`. -/
def spaces (n : Nat) : String := String.mk (List.replicate n ' ')

/-- The characters a formatted insertion of `s` puts on the stream: `s` filled up to the
pending width, after `s` when the stream is left-adjusted and before it otherwise. -/
def ostream.padded (os : ostream) (s : String) : String :=
  if os.adjustfield = fmtflags.left then s ++ spaces (os.width - s.length).toNat
  else spaces (os.width - s.length).toNat ++ s

/-- Formatted insertion `os << s` of a string, a character or an integer text: writes the
padded text and resets the width to 0. -/
def ostream.insert (os : ostream) (s : String) : ostream :=
  { os with str := os.str ++ os.padded s, width := 0 }

/-- The manipulator `os << std::setw(w)`. -/
def ostream.setw (os : ostream) (w : Int) : ostream := { os with width := w }

/-- The member `ss.str("")`: only the characters are dropped. -/
def ostream.clear_str (os : ostream) : ostream := { os with str := "" }

/-- The characters of a C string: those before the first NUL. -/
def c_str (s : String) : String := String.mk (s.data.takeWhile (fun c => c ≠ Char.ofNat 0))

/-- The text `std::to_string(n)` of a `long`, also what `os << i` prints for an `int`. -/
def to_string (n : Int) : String := toString n

/-! ## The field catalogue -/

namespace align

/-- The enumeration `align::side`. -/
inductive side where
  | left
  | right
  deriving DecidableEq, Repr

/-- The manipulator `s == left ? std::left : std::right`. -/
def side.flag : side → fmtflags
  | side.left => fmtflags.left
  | side.right => fmtflags.right

end align

/-- The field types a format is declared with (a type of the catalogue with its template
arguments). -/
inductive Kind where
  | text (chars : String)
  | text_void
  | number
  | separator (separator_char : Char)
  | timestamp
  | indent (width : Nat)
  | width (w : Int) (s : align.side)
  deriving DecidableEq, Repr

/-- A field object: its type together with its data members. The `timestamp` object carries
the `std::ctime` text that its one clock reading returns. -/
inductive field where
  | text (chars : String)
  | text_void (str : String)
  | number (n : Int)
  | separator (separator_char : Char)
  | timestamp (ctime : String)
  | indent (width : Nat)
  | width (w : Int) (s : align.side)
  deriving DecidableEq, Repr

/-- The type of a field object. -/
def field.kind : field → Kind
  | field.text chars => Kind.text chars
  | field.text_void _ => Kind.text_void
  | field.number _ => Kind.number
  | field.separator c => Kind.separator c
  | field.timestamp _ => Kind.timestamp
  | field.indent w => Kind.indent w
  | field.width w s => Kind.width w s

/-- The virtual `out` of each field type, reached through `os << f`. -/
def field.out : field → ostream → ostream
  | field.text chars, os => os.insert (c_str chars)
  | field.text_void str, os => os.insert (c_str str)
  | field.number n, os => os.insert (to_string n)
  | field.separator c, os => os.insert (String.singleton c)
  | field.timestamp ctime, os => os.insert (ctime.dropRight 1)
  | field.indent w, os => os.insert (spaces w)
  | field.width w s, os => ({ os with adjustfield := s.flag }).setw w

/-- The trait `std::is_base_of<runtime_field, T>`. -/
def is_base_of_runtime_field : Kind → Bool
  | Kind.text_void => true
  | Kind.number => true
  | _ => false

/-- The trait `std::is_base_of<field, T>`: every type of the catalogue derives from `field`. -/
def is_base_of_field : Kind → Bool
  | _ => true

/-- The alias `field_filter_predicate_1`. -/
def field_filter_predicate_1 (T : Kind) : Bool := is_base_of_runtime_field T

/-- The alias `field_filter_predicate_2`. -/
def field_filter_predicate_2 (T : Kind) : Bool := is_base_of_field T

/-! ## The static/dynamic partition of a declaration -/

/-- The member `field_filter<Ts...>::type`. -/
def field_filter.type : List Kind → List Kind
  | [] => []
  | First :: Rest =>
    if field_filter_predicate_1 First && field_filter_predicate_2 First
    then First :: field_filter.type Rest
    else field_filter.type Rest

/-- The member `field_filter<First, Rest...>::nontype`. The empty specialisation has no such
member; both branches of the conditional name `field_filter<Rest...>::type`. -/
def field_filter.nontype (First : Kind) (Rest : List Kind) : List Kind :=
  if !field_filter_predicate_1 First && field_filter_predicate_2 First
  then First :: field_filter.type Rest
  else field_filter.type Rest

/-- The template `format<First, Rest...>`: a declaration has at least one field type. -/
structure format where
  First : Kind
  Rest : List Kind
  deriving DecidableEq, Repr

/-- The alias `format::all_fields_t`. -/
def format.all_fields_t (F : format) : List Kind := F.First :: F.Rest

/-- The alias `format::runtime_fields_t`. -/
def format.runtime_fields_t (F : format) : List Kind := field_filter.type (F.First :: F.Rest)

/-- The alias `format::static_fields_t`. -/
def format.static_fields_t (F : format) : List Kind := field_filter.nontype F.First F.Rest

/-! ## The merge walk -/

/-- The two overloads of `for_each_field<I, J>`: nothing when `I` has reached the size of the
first tuple; otherwise the callback on element `J` of the second tuple (when the type of
element `I` of the first derives from `runtime_field`) or on element `I` of the first, and
the next instantiation. `std::get` beyond a tuple does not compile. The first argument bounds
the number of nested instantiations. -/
def for_each_field_from {σ : Type} (t1 t2 : List field) (f : σ → field → σ) :
    Nat → Nat → Nat → σ → Option σ
  | 0, I, _, st => if t1.length ≤ I then some st else none
  | depth + 1, I, J, st =>
    if t1.length ≤ I then some st
    else
      match t1[I]? with
      | none => none
      | some e =>
        if is_base_of_runtime_field e.kind then
          match t2[J]? with
          | none => none
          | some v => for_each_field_from t1 t2 f depth (I + 1) (J + 1) (f st v)
        else for_each_field_from t1 t2 f depth (I + 1) J (f st e)

/-- The call `for_each_field(t1, t2, f)` with the default `I = 0`, `J = 0`. -/
def for_each_field {σ : Type} (t1 t2 : List field) (f : σ → field → σ) (st : σ) : Option σ :=
  for_each_field_from t1 t2 f t1.length 0 0 st

/-! ## Scoped fields and the registry -/

/-- The value an `int` holds after an addition whose mathematical result is `x`
(two's complement, 32 bits). -/
def int_wrap (x : Int) : Int := (x + 2147483648) % 4294967296 - 2147483648

/-- The scoped field types with their data members; `base` is `scoped_field` itself and
`scoped_index` carries its counter `i`. -/
inductive scoped_object where
  | base
  | scoped_indent (width : Nat)
  | scoped_index (begin offset : Int) (i : Int)
  | scoped_text (chars : String)
  | scoped_width (w : Int) (s : align.side)
  deriving DecidableEq, Repr

/-- A live scoped field: its address `this`, which is what the registry stores, and the
object found there. -/
structure scoped_field where
  this : Nat
  object : scoped_object
  deriving DecidableEq, Repr

/-- A `scoped_index<begin, offset>` as constructed: `int i = begin`. -/
def scoped_object.index (begin offset : Int) : scoped_object :=
  scoped_object.scoped_index begin offset begin

/-- The virtual `out` of each scoped field type: the stream after the call and the object
after it (only `scoped_index` changes: `i += offset`). -/
def scoped_object.out : scoped_object → ostream → ostream × scoped_object
  | scoped_object.base, os => (os, scoped_object.base)
  | scoped_object.scoped_indent w, os => (os.insert (spaces w), scoped_object.scoped_indent w)
  | scoped_object.scoped_index b o i, os =>
    (os.insert (to_string i), scoped_object.scoped_index b o (int_wrap (i + o)))
  | scoped_object.scoped_text chars, os =>
    (os.insert (c_str chars), scoped_object.scoped_text chars)
  | scoped_object.scoped_width w s, os =>
    (({ os with adjustfield := s.flag }).setw w, scoped_object.scoped_width w s)

/-- The constructor `scoped_field()`: `field_list.push_back(this)`. -/
def scoped_field.construct (field_list : List scoped_field) (f : scoped_field) :
    List scoped_field :=
  field_list ++ [f]

/-- The destructor `~scoped_field()`: `field_list.erase(std::remove(begin, end, this), end)`. -/
def scoped_field.destruct (field_list : List scoped_field) (this : Nat) : List scoped_field :=
  field_list.filter (fun g => g.this != this)

/-- The loop `for (scoped_field* f : field_list) ss << *f;`: the stream and the registered
objects after it. -/
def render_field_list : List scoped_field → ostream → ostream × List scoped_field
  | [], os => (os, [])
  | f :: rest, os =>
    ((render_field_list rest (f.object.out os).1).1,
      ⟨f.this, (f.object.out os).2⟩ :: (render_field_list rest (f.object.out os).1).2)

/-! ## The log -/

/-- An argument of `add`: one convertible to `long` (with the value it converts to) or a
C string. -/
inductive argument where
  | long (nmb : Int)
  | c_string (string : String)
  deriving DecidableEq, Repr

/-- The converting constructors `number(long)` and `text<void>(const char*)`. -/
def convert : Kind → argument → Option field
  | Kind.number, argument.long nmb => some (field.number nmb)
  | Kind.text_void, argument.c_string string => some (field.text_void string)
  | _, _ => none

/-- The initialisation `runtime_fields_t rt_fields = std::make_tuple(_rt_fields...)`: the
tuple sizes must agree and every element must convert. -/
def make_runtime_fields : List Kind → List argument → Option (List field)
  | [], [] => some []
  | T :: Ts, a :: as =>
    match convert T a, make_runtime_fields Ts as with
    | some x, some xs => some (x :: xs)
    | _, _ => none
  | _, _ => none

/-- The default constructor of each field type; `ctime` is the clock text a `timestamp` at
this place reads when it is rendered. -/
def default_field (ctime : String) : Kind → field
  | Kind.text chars => field.text chars
  | Kind.text_void => field.text_void ""
  | Kind.number => field.number 0
  | Kind.separator c => field.separator c
  | Kind.timestamp => field.timestamp ctime
  | Kind.indent w => field.indent w
  | Kind.width w s => field.width w s

/-- The declaration `all_fields_t fields;`, elements from index `I` on; `clock I` is the
reading of the wall clock by the element at index `I`. -/
def construct_fields (clock : Nat → String) : Nat → List Kind → List field
  | _, [] => []
  | I, T :: Ts => default_field (clock I) T :: construct_fields clock (I + 1) Ts

/-- The class `log`: its buffer. -/
structure log where
  log_arr : List String
  deriving DecidableEq, Repr

/-- What a call of `add` leaves: the returned line, the function-local static stream of the
instantiation, the registered objects and the log. -/
structure add_result where
  ln : String
  ss : ostream
  field_list : List scoped_field
  self : log
  deriving DecidableEq, Repr

/-- The member `log::add<Format>(_rt_fields...)`, run on the registry `field_list` and on
`ss`, the state in which the previous call of this instantiation left its static stream
(`ostream.fresh` on the first call). -/
def log.add (self : log) (ss : ostream) (field_list : List scoped_field)
    (clock : Nat → String) (Format : format) (_rt_fields : List argument) :
    Option add_result :=
  match make_runtime_fields Format.runtime_fields_t _rt_fields with
  | none => none
  | some rt_fields =>
    match for_each_field (construct_fields clock 0 Format.all_fields_t) rt_fields
        (fun os f => f.out os) (render_field_list field_list ss.clear_str).1 with
    | none => none
    | some os =>
      some ⟨os.str, os, (render_field_list field_list ss.clear_str).2,
        ⟨self.log_arr ++ [os.str]⟩⟩

/-- The member `log::out`, reached through `os << log`: the stream and the log after it. -/
def log.out (self : log) (os : ostream) : ostream × log :=
  (self.log_arr.foldl (fun o ln => (o.insert ln).insert "\n") os, self)

/-! ## Vocabulary of the properties -/

/-- Concatenation of a list of texts, left to right. -/
def concatenation (l : List String) : String := l.foldr (fun s r => s ++ r) ""

/-- The number of dynamic positions before position `p` of a field tuple. -/
def dynamic_index (t1 : List field) (p : Nat) : Nat :=
  (t1.take p).countP (fun e => is_base_of_runtime_field e.kind)

/-- The field that belongs at declared position `p`: the field stored there when its type is
static, the `j`-th supplied value when `p` is the `j`-th dynamic position. -/
def field_at (t1 t2 : List field) (p : Nat) : Option field :=
  match t1[p]? with
  | none => none
  | some e => if is_base_of_runtime_field e.kind then t2[dynamic_index t1 p]? else some e

/-- The characters of a field by itself, as the catalogue describes them; an aligned width
has none. -/
def field.characters : field → String
  | field.text chars => c_str chars
  | field.text_void str => c_str str
  | field.number n => to_string n
  | field.separator c => String.singleton c
  | field.timestamp ctime => ctime.dropRight 1
  | field.indent w => spaces w
  | field.width _ _ => ""

/-- The characters of `f` when it is written directly after `before`: nothing for an aligned
width; its characters filled up to the width of an aligned width directly before it;
its characters otherwise. -/
def rendering_after (before : Option field) (f : field) : String :=
  match f with
  | field.width _ _ => ""
  | _ =>
    match before with
    | some (field.width w s) => (ostream.mk "" w s.flag).padded f.characters
    | _ => f.characters

/-- The renderings of a sequence of fields written one after the other. -/
def renderings (before : Option field) : List field → List String
  | [] => []
  | f :: rest => rendering_after before f :: renderings (some f) rest

/-- What the stream retains from the field written last: the width and side of an aligned
width, no width otherwise. -/
def pending (before : Option field) (os : ostream) : Prop :=
  match before with
  | some (field.width w s) => os.width = w ∧ os.adjustfield = s.flag
  | _ => os.width ≤ 0

/-- The characters a scoped field writes by itself, on a stream with nothing pending. -/
def scoped_object.rendering (o : scoped_object) : String := (o.out ostream.fresh).1.str

/-- An argument that converts to a field of the given dynamic type. -/
def default_argument : Kind → argument
  | Kind.text_void => argument.c_string ""
  | _ => argument.long 0

/-- The object a scoped field has become after it was rendered once on each of the given
streams, in turn. -/
def scoped_object.rendered (o : scoped_object) : List ostream → scoped_object
  | [] => o
  | os :: rest => scoped_object.rendered (o.out os).2 rest

/-- The values of the type `int`. -/
def is_int (x : Int) : Prop := -2147483648 ≤ x ∧ x ≤ 2147483647

/-- One call of `add`: the state of the static stream of its instantiation on entry, the
clock readings, the format and the arguments. -/
structure call where
  ss : ostream
  clock : Nat → String
  Format : format
  _rt_fields : List argument

/-- Successive calls of `add` on one log; rejected as a whole when one of them is. -/
def log.add_all : log → List scoped_field → List call → Option (List add_result)
  | _, _, [] => some []
  | self, field_list, c :: cs =>
    match self.add c.ss field_list c.clock c.Format c._rt_fields with
    | none => none
    | some r =>
      match log.add_all r.self r.field_list cs with
      | none => none
      | some rs => some (r :: rs)

/-- The field a supplied argument converts to. -/
def argument.field : argument → field
  | argument.long nmb => field.number nmb
  | argument.c_string string => field.text_void string

/-- What happens to the registry: a scoped field is constructed, or the scoped field at an
address is destroyed. -/
inductive event where
  | construct (f : scoped_field)
  | destruct (this : Nat)
  deriving DecidableEq, Repr

/-- The address an event is about. -/
def event.address : event → Nat
  | event.construct f => f.this
  | event.destruct this => this

/-- The registry after one event. -/
def event.apply (field_list : List scoped_field) : event → List scoped_field
  | event.construct f => scoped_field.construct field_list f
  | event.destruct this => scoped_field.destruct field_list this

/-- The registry after a sequence of events, oldest first. -/
def run_events (field_list : List scoped_field) (es : List event) : List scoped_field :=
  es.foldl event.apply field_list

/-- Whether the field at address `a` is alive after the events, oldest first: it is alive
after its construction and not alive after its scope has ended; `before` is whether it was
alive before them. -/
def alive_after (before : Bool) (es : List event) (a : Nat) : Bool :=
  es.foldl (fun flag e =>
    match e with
    | event.construct f => if f.this = a then true else flag
    | event.destruct this => if this = a then false else flag) before

/-- The sequences of events, oldest first and starting from an empty registry, in which
every construction is at an address whose field is not alive. -/
inductive lifetimes : List event → Prop where
  | nil : lifetimes []
  | construct (es : List event) (f : scoped_field) :
      lifetimes es → alive_after false es f.this = false →
      lifetimes (es ++ [event.construct f])
  | destruct (es : List event) (this : Nat) :
      lifetimes es → lifetimes (es ++ [event.destruct this])

/-- The text `c` filled up with spaces to the width `w`: the spaces after `c` for the side
left, before it for the side right. -/
def aligned (w : Int) (s : align.side) (c : String) : String :=
  match s with
  | align.side.left => c ++ spaces (w - c.length).toNat
  | align.side.right => spaces (w - c.length).toNat ++ c

/-- The walk of `for_each_field_from` with its two cursors recorded: for every
instantiation that calls the callback, the pair of `I` and, when it reads the second tuple,
`J`; and the value of `J` when `I` has reached the size of the first tuple. -/
def for_each_field_cursors (t1 t2 : List field) :
    Nat → Nat → Nat → Option (List (Nat × Option Nat) × Nat)
  | 0, I, J => if t1.length ≤ I then some ([], J) else none
  | depth + 1, I, J =>
    if t1.length ≤ I then some ([], J)
    else
      match t1[I]? with
      | none => none
      | some e =>
        if is_base_of_runtime_field e.kind then
          match t2[J]? with
          | none => none
          | some _ =>
            (for_each_field_cursors t1 t2 depth (I + 1) (J + 1)).map
              (fun r => ((I, some J) :: r.1, r.2))
        else
          (for_each_field_cursors t1 t2 depth (I + 1) J).map
            (fun r => ((I, none) :: r.1, r.2))

/-- The field the callback receives in an instantiation with the recorded cursors. -/
def visited_field (t1 t2 : List field) (v : Nat × Option Nat) : Option field :=
  match v.2 with
  | some J => t2[J]?
  | none => t1[v.1]?

/-- The cursors that belong to position `p`: the position, and at a dynamic position the
number of dynamic positions before it. -/
def cursors_at (t1 : List field) (p : Nat) : Nat × Option Nat :=
  (p, match t1[p]? with
    | some e => if is_base_of_runtime_field e.kind then some (dynamic_index t1 p) else none
    | none => none)

/-! ## Streams -/

theorem spaces_zero : spaces 0 = "" := rfl

theorem padded_of_width_nonpos (os : ostream) (s : String) (h : os.width ≤ 0) :
    os.padded s = s := by
  have h0 : (os.width - (s.length : Int)).toNat = 0 := by
    apply Int.toNat_eq_zero.mpr
    have : (0 : Int) ≤ (s.length : Int) := Int.ofNat_nonneg _
    omega
  unfold ostream.padded
  rw [h0, spaces_zero]
  split <;> simp

theorem insert_of_width_nonpos (os : ostream) (s : String) (h : os.width ≤ 0) :
    os.insert s = { os with str := os.str ++ s, width := 0 } := by
  unfold ostream.insert
  rw [padded_of_width_nonpos os s h]

theorem padded_eq_of_flags (os : ostream) (w : Int) (a : fmtflags) (s : String)
    (hw : os.width = w) (ha : os.adjustfield = a) :
    os.padded s = (ostream.mk "" w a).padded s := by
  unfold ostream.padded
  simp [hw, ha]

theorem concatenation_cons (s : String) (l : List String) :
    concatenation (s :: l) = s ++ concatenation l := rfl

theorem concatenation_append (l l2 : List String) :
    concatenation (l ++ l2) = concatenation l ++ concatenation l2 := by
  induction l with
  | nil => simp [concatenation]
  | cons a t ih => simp [concatenation_cons, ih, String.append_assoc]

/-- One field written after `before` appends its rendering and leaves the stream as the
next field expects it. -/
theorem out_appends (before : Option field) (f : field) (os : ostream)
    (h : pending before os) :
    (f.out os).str = os.str ++ rendering_after before f ∧ pending (some f) (f.out os) := by
  cases f with
  | width w s => simp [field.out, ostream.setw, rendering_after, pending]
  | text chars | text_void str | number n | separator c | timestamp ct | indent w =>
    refine ⟨?_, by simp [field.out, ostream.insert, pending]⟩
    simp only [field.out, ostream.insert, rendering_after, field.characters]
    congr 1
    match before, h with
    | some (field.width w s), h => exact padded_eq_of_flags os w s.flag _ h.1 h.2
    | none, h => exact padded_of_width_nonpos os _ h
    | some (field.text _), h => exact padded_of_width_nonpos os _ h
    | some (field.text_void _), h => exact padded_of_width_nonpos os _ h
    | some (field.number _), h => exact padded_of_width_nonpos os _ h
    | some (field.separator _), h => exact padded_of_width_nonpos os _ h
    | some (field.timestamp _), h => exact padded_of_width_nonpos os _ h
    | some (field.indent _), h => exact padded_of_width_nonpos os _ h

/-- Fields written one after the other append their renderings in that order. -/
theorem foldl_out_str (m : List field) :
    ∀ (before : Option field) (os : ostream), pending before os →
      (m.foldl (fun o f => f.out o) os).str = os.str ++ concatenation (renderings before m) := by
  induction m with
  | nil => intro before os _; simp [renderings, concatenation]
  | cons f rest ih =>
    intro before os h
    have h1 := out_appends before f os h
    simp only [List.foldl_cons, renderings, concatenation_cons]
    rw [ih (some f) (f.out os) h1.2, h1.1, String.append_assoc]

/-! ## The partition -/

theorem field_filter_type_eq_filter (Ts : List Kind) :
    field_filter.type Ts = Ts.filter is_base_of_runtime_field := by
  induction Ts with
  | nil => rfl
  | cons T Ts ih =>
    simp only [field_filter.type, field_filter_predicate_1, field_filter_predicate_2,
      is_base_of_field, Bool.and_true, List.filter_cons, ih]

theorem length_field_filter_type (Ts : List Kind) :
    (field_filter.type Ts).length = Ts.countP is_base_of_runtime_field := by
  rw [field_filter_type_eq_filter, List.countP_eq_length_filter]

/-! ## Conversion of the arguments and construction of the field tuple -/

theorem make_runtime_fields_length :
    ∀ (Ts : List Kind) (args : List argument) (values : List field),
      make_runtime_fields Ts args = some values →
        args.length = Ts.length ∧ values.length = Ts.length
  | [], [], values, h => by
    simp only [make_runtime_fields, Option.some.injEq] at h
    subst h
    simp
  | [], _ :: _, _, h => by simp [make_runtime_fields] at h
  | _ :: _, [], _, h => by simp [make_runtime_fields] at h
  | T :: Ts, a :: as, values, h => by
    simp only [make_runtime_fields] at h
    cases hc : convert T a with
    | none => simp [hc] at h
    | some x =>
      cases hr : make_runtime_fields Ts as with
      | none => simp [hc, hr] at h
      | some xs =>
        simp only [hc, hr, Option.some.injEq] at h
        subst h
        have ih := make_runtime_fields_length Ts as xs hr
        simp [ih.1, ih.2]

theorem make_runtime_fields_of_length_ne (Ts : List Kind) (args : List argument)
    (h : args.length ≠ Ts.length) : make_runtime_fields Ts args = none := by
  cases hm : make_runtime_fields Ts args with
  | none => rfl
  | some values => exact absurd (make_runtime_fields_length Ts args values hm).1 h

theorem kind_default_field (ctime : String) (T : Kind) : (default_field ctime T).kind = T := by
  cases T <;> rfl

theorem map_kind_construct_fields (clock : Nat → String) :
    ∀ (Ts : List Kind) (I : Nat), (construct_fields clock I Ts).map field.kind = Ts
  | [], _ => rfl
  | T :: Ts, I => by
    simp [construct_fields, kind_default_field, map_kind_construct_fields clock Ts (I + 1)]

theorem length_construct_fields (clock : Nat → String) (Ts : List Kind) (I : Nat) :
    (construct_fields clock I Ts).length = Ts.length := by
  have h := congrArg List.length (map_kind_construct_fields clock Ts I)
  simpa using h

theorem countP_construct_fields (clock : Nat → String) (Ts : List Kind) (I : Nat) :
    (construct_fields clock I Ts).countP (fun e => is_base_of_runtime_field e.kind)
      = Ts.countP is_base_of_runtime_field := by
  have h := map_kind_construct_fields clock Ts I
  calc (construct_fields clock I Ts).countP (fun e => is_base_of_runtime_field e.kind)
      = ((construct_fields clock I Ts).map field.kind).countP is_base_of_runtime_field := by
        rw [List.countP_map]; rfl
    _ = Ts.countP is_base_of_runtime_field := by rw [h]

/-! ## The merge walk -/

theorem dynamic_index_succ (t1 : List field) (I : Nat) (e : field) (h : t1[I]? = some e) :
    dynamic_index t1 (I + 1)
      = dynamic_index t1 I + (if is_base_of_runtime_field e.kind then 1 else 0) := by
  unfold dynamic_index
  rw [List.take_succ, List.countP_append, h]
  by_cases hb : is_base_of_runtime_field e.kind = true <;> simp [hb]

theorem dynamic_index_le (t1 : List field) (I : Nat) :
    dynamic_index t1 I ≤ t1.countP (fun e => is_base_of_runtime_field e.kind) :=
  List.Sublist.countP_le _ (List.take_sublist I t1)

theorem dynamic_index_lt (t1 : List field) (I : Nat) (e : field) (h : t1[I]? = some e)
    (hb : is_base_of_runtime_field e.kind = true) :
    dynamic_index t1 I < t1.countP (fun e => is_base_of_runtime_field e.kind) := by
  have h1 := dynamic_index_succ t1 I e h
  have h2 := dynamic_index_le t1 (I + 1)
  simp only [hb, if_true] at h1
  omega

/-- The walk from position `I` with the value cursor at the number of dynamic positions
before `I` calls the callback on the fields that belong at positions `I`, `I + 1`, ... in
that order, when the second tuple holds a value for every dynamic position and the nesting
bound is at least the number of positions left. -/
theorem for_each_field_from_eq_foldl {σ : Type} (t1 t2 : List field) (f : σ → field → σ)
    (hv : t1.countP (fun e => is_base_of_runtime_field e.kind) ≤ t2.length) :
    ∀ (k depth I : Nat) (st : σ), k ≤ depth → I + k = t1.length →
      for_each_field_from t1 t2 f depth I (dynamic_index t1 I) st
        = some (((List.range' I k).filterMap (field_at t1 t2)).foldl f st) := by
  intro k
  induction k with
  | zero =>
    intro depth I st _ hI
    have hle : t1.length ≤ I := by omega
    cases depth <;> simp [for_each_field_from, hle]
  | succ k ih =>
    intro depth I st hd hI
    have hlt : I < t1.length := by omega
    have hnle : ¬ t1.length ≤ I := by omega
    obtain ⟨d, rfl⟩ : ∃ d, depth = d + 1 := ⟨depth - 1, by omega⟩
    obtain ⟨e, he⟩ : ∃ e, t1[I]? = some e := ⟨t1[I], List.getElem?_eq_getElem hlt⟩
    have hs := dynamic_index_succ t1 I e he
    simp only [for_each_field_from, hnle, if_false, he, List.range'_succ, List.filterMap_cons]
    by_cases hb : is_base_of_runtime_field e.kind = true
    · have hj := dynamic_index_lt t1 I e he hb
      have hj2 : dynamic_index t1 I < t2.length := by omega
      obtain ⟨v, hv2⟩ : ∃ v, t2[dynamic_index t1 I]? = some v :=
        ⟨t2[dynamic_index t1 I], List.getElem?_eq_getElem hj2⟩
      have hat : field_at t1 t2 I = some v := by simp [field_at, he, hb, hv2]
      simp only [hb, if_true] at hs
      simp only [hb, if_true, hv2, hat, List.foldl_cons]
      rw [← hs]
      exact ih d (I + 1) (f st v) (by omega) (by omega)
    · have hat : field_at t1 t2 I = some e := by simp [field_at, he, hb]
      simp only [hb] at hs
      simp only [hb, hat, List.foldl_cons]
      have hs2 : dynamic_index t1 (I + 1) = dynamic_index t1 I := by simpa using hs
      rw [← hs2]
      exact ih d (I + 1) (f st e) (by omega) (by omega)

theorem dynamic_index_zero (t1 : List field) : dynamic_index t1 0 = 0 := by
  simp [dynamic_index]

theorem field_at_isSome (t1 t2 : List field)
    (hv : t1.countP (fun e => is_base_of_runtime_field e.kind) ≤ t2.length)
    (p : Nat) (hp : p < t1.length) : ∃ x, field_at t1 t2 p = some x := by
  have he : t1[p]? = some t1[p] := List.getElem?_eq_getElem hp
  by_cases hb : is_base_of_runtime_field (t1[p]).kind = true
  · have hj := dynamic_index_lt t1 p t1[p] he hb
    have hj2 : dynamic_index t1 p < t2.length := by omega
    exact ⟨t2[dynamic_index t1 p], by
      simp [field_at, he, hb, List.getElem?_eq_getElem hj2]⟩
  · exact ⟨t1[p], by simp [field_at, he, hb]⟩

theorem map_some_filterMap {α β : Type} (g : α → Option β) :
    ∀ (l : List α), (∀ x ∈ l, ∃ y, g x = some y) → (l.filterMap g).map some = l.map g
  | [], _ => rfl
  | a :: l, h => by
    obtain ⟨y, hy⟩ := h a (List.mem_cons_self a l)
    have ih := map_some_filterMap g l (fun x hx => h x (List.mem_cons_of_mem a hx))
    simp [List.filterMap_cons, hy, ih]

/-- The walk calls the callback exactly on the fields that belong at positions
0, 1, ..., size - 1, in that order. -/
theorem for_each_field_eq_foldl {σ : Type} (t1 t2 : List field) (f : σ → field → σ) (st : σ)
    (hv : t1.countP (fun e => is_base_of_runtime_field e.kind) ≤ t2.length) :
    ∃ m : List field, for_each_field t1 t2 f st = some (m.foldl f st) ∧
      m.map some = (List.range t1.length).map (field_at t1 t2) := by
  refine ⟨(List.range t1.length).filterMap (field_at t1 t2), ?_, ?_⟩
  · have h := for_each_field_from_eq_foldl t1 t2 f hv t1.length t1.length 0 st
      (Nat.le_refl _) (by simp)
    rw [dynamic_index_zero] at h
    rw [List.range_eq_range']
    exact h
  · apply map_some_filterMap
    intro p hp
    exact field_at_isSome t1 t2 hv p (List.mem_range.mp hp)

/-- The field tuple of a format and the converted arguments of an accepted call hold a
value for every dynamic position. -/
theorem values_cover (clock : Nat → String) (F : format) (args : List argument)
    (values : List field) (hargs : make_runtime_fields F.runtime_fields_t args = some values) :
    (construct_fields clock 0 F.all_fields_t).countP (fun e => is_base_of_runtime_field e.kind)
      ≤ values.length := by
  rw [countP_construct_fields, (make_runtime_fields_length _ _ _ hargs).2,
    format.runtime_fields_t, length_field_filter_type]
  exact Nat.le_refl _

/-- What `add` returns on an accepted call: the fields that belong at the declared positions
are written in order onto the stream left by the loop over the registry. -/
theorem add_eq (self : log) (ss : ostream) (field_list : List scoped_field)
    (clock : Nat → String) (F : format) (args : List argument) (values : List field)
    (hargs : make_runtime_fields F.runtime_fields_t args = some values) :
    ∃ m : List field,
      m.map some = (List.range F.all_fields_t.length).map
        (field_at (construct_fields clock 0 F.all_fields_t) values) ∧
      self.add ss field_list clock F args = some
        ⟨(m.foldl (fun o f => f.out o) (render_field_list field_list ss.clear_str).1).str,
         m.foldl (fun o f => f.out o) (render_field_list field_list ss.clear_str).1,
         (render_field_list field_list ss.clear_str).2,
         ⟨self.log_arr ++
           [(m.foldl (fun o f => f.out o) (render_field_list field_list ss.clear_str).1).str]⟩⟩ := by
  obtain ⟨m, hm, hmap⟩ := for_each_field_eq_foldl (construct_fields clock 0 F.all_fields_t)
    values (fun o f => f.out o) (render_field_list field_list ss.clear_str).1
    (values_cover clock F args values hargs)
  rw [length_construct_fields] at hmap
  refine ⟨m, hmap, ?_⟩
  unfold log.add
  simp only [hargs, hm]

theorem convert_kind (T : Kind) (a : argument) (x : field) (h : convert T a = some x) :
    is_base_of_runtime_field x.kind = true := by
  cases T <;> cases a <;> simp [convert] at h <;> subst h <;> rfl

theorem make_runtime_fields_kind :
    ∀ (Ts : List Kind) (args : List argument) (values : List field),
      make_runtime_fields Ts args = some values →
        ∀ v ∈ values, is_base_of_runtime_field v.kind = true
  | [], [], values, h => by
    simp only [make_runtime_fields, Option.some.injEq] at h
    subst h
    simp
  | [], _ :: _, _, h => by simp [make_runtime_fields] at h
  | _ :: _, [], _, h => by simp [make_runtime_fields] at h
  | T :: Ts, a :: as, values, h => by
    simp only [make_runtime_fields] at h
    cases hc : convert T a with
    | none => simp [hc] at h
    | some x =>
      cases hr : make_runtime_fields Ts as with
      | none => simp [hc, hr] at h
      | some xs =>
        simp only [hc, hr, Option.some.injEq] at h
        subst h
        intro v hv
        rcases List.mem_cons.mp hv with rfl | hv
        · exact convert_kind T a _ hc
        · exact make_runtime_fields_kind Ts as xs hr v hv

theorem rendering_after_eq_characters (before : Option field) (f : field)
    (hb : ∀ w s, before ≠ some (field.width w s)) :
    rendering_after before f = f.characters := by
  cases f with
  | width w s => rfl
  | text chars | text_void str | number n | separator c | timestamp ct | indent w =>
    match before, hb with
    | some (field.width w s), hb => exact absurd rfl (hb w s)
    | none, _ => rfl
    | some (field.text _), _ => rfl
    | some (field.text_void _), _ => rfl
    | some (field.number _), _ => rfl
    | some (field.separator _), _ => rfl
    | some (field.timestamp _), _ => rfl
    | some (field.indent _), _ => rfl

theorem renderings_eq_map_characters :
    ∀ (m : List field) (before : Option field),
      (∀ f ∈ m, ∀ w s, f ≠ field.width w s) → (∀ w s, before ≠ some (field.width w s)) →
        renderings before m = m.map field.characters
  | [], _, _, _ => rfl
  | f :: rest, before, hm, hb => by
    have hf : ∀ w s, some f ≠ some (field.width w s) := fun w s h =>
      hm f (List.mem_cons_self f rest) w s (Option.some.inj h)
    simp only [renderings, List.map_cons, rendering_after_eq_characters before f hb,
      renderings_eq_map_characters rest (some f)
        (fun g hg => hm g (List.mem_cons_of_mem f hg)) hf]

/-- A field that belongs at a declared position is a supplied value or a field of the tuple
whose type is the declared one. -/
theorem field_at_cases (t1 t2 : List field) (p : Nat) (x : field)
    (h : field_at t1 t2 p = some x) : x ∈ t2 ∨ x ∈ t1 := by
  unfold field_at at h
  cases he : t1[p]? with
  | none => simp [he] at h
  | some e =>
    simp only [he] at h
    by_cases hb : is_base_of_runtime_field e.kind = true
    · simp only [hb, if_true] at h
      exact Or.inl (List.getElem?_mem h)
    · simp only [hb] at h
      have hx : e = x := by simpa using h
      subst hx
      exact Or.inr (List.getElem?_mem he)

theorem not_width_of_fields (clock : Nat → String) (F : format) (args : List argument)
    (values : List field) (hargs : make_runtime_fields F.runtime_fields_t args = some values)
    (hF : ∀ w s, Kind.width w s ∉ F.all_fields_t) (m : List field)
    (hm : m.map some = (List.range F.all_fields_t.length).map
        (field_at (construct_fields clock 0 F.all_fields_t) values)) :
    ∀ f ∈ m, ∀ w s, f ≠ field.width w s := by
  intro f hf w s hfw
  have h1 : some f ∈ m.map some := List.mem_map_of_mem some hf
  rw [hm] at h1
  obtain ⟨p, _, hp⟩ := List.mem_map.mp h1
  rcases field_at_cases _ _ p f hp with hv | hc
  · have := make_runtime_fields_kind _ _ _ hargs f hv
    rw [hfw] at this
    simp [field.kind, is_base_of_runtime_field] at this
  · have hk : f.kind ∈ (construct_fields clock 0 F.all_fields_t).map field.kind :=
      List.mem_map_of_mem field.kind hc
    rw [map_kind_construct_fields, hfw] at hk
    exact hF w s hk

theorem convert_eq_field (T : Kind) (a : argument) (x : field) (h : convert T a = some x) :
    x = a.field := by
  cases T <;> cases a <;> simp [convert] at h <;> subst h <;> rfl

theorem make_runtime_fields_eq_map :
    ∀ (Ts : List Kind) (args : List argument) (values : List field),
      make_runtime_fields Ts args = some values → values = args.map argument.field
  | [], [], values, h => by
    simp only [make_runtime_fields, Option.some.injEq] at h
    subst h
    rfl
  | [], _ :: _, _, h => by simp [make_runtime_fields] at h
  | _ :: _, [], _, h => by simp [make_runtime_fields] at h
  | T :: Ts, a :: as, values, h => by
    simp only [make_runtime_fields] at h
    cases hc : convert T a with
    | none => simp [hc] at h
    | some x =>
      cases hr : make_runtime_fields Ts as with
      | none => simp [hc, hr] at h
      | some xs =>
        simp only [hc, hr, Option.some.injEq] at h
        subst h
        rw [convert_eq_field T a x hc, make_runtime_fields_eq_map Ts as xs hr]
        rfl

/-! ## Claims -/

/-- C1 (as amended). For an accepted call of add with an empty registry on a stream without
a pending width, the returned line is the concatenation, over the declared positions from
left to right, of the rendering of the field that belongs there (the static field at a
static position, the j-th supplied value at the j-th dynamic position), where an aligned
width contributes no characters and pads the field directly after it; when the format has
no aligned width the line is the concatenation of the characters of these fields. -/
theorem add_renders_declared_order (self : log) (ss : ostream) (clock : Nat → String)
    (F : format) (args : List argument) (values : List field)
    (hargs : make_runtime_fields F.runtime_fields_t args = some values)
    (hw : ss.width ≤ 0) :
    values = args.map argument.field ∧
    ∃ (r : add_result) (m : List field),
      self.add ss [] clock F args = some r ∧
      m.map some = (List.range F.all_fields_t.length).map
        (field_at (construct_fields clock 0 F.all_fields_t) values) ∧
      r.ln = concatenation (renderings none m) ∧
      ((∀ w s, Kind.width w s ∉ F.all_fields_t) →
        r.ln = concatenation (m.map field.characters)) := by
  refine ⟨make_runtime_fields_eq_map _ _ _ hargs, ?_⟩
  obtain ⟨m, hm, hadd⟩ := add_eq self ss [] clock F args values hargs
  have hp : pending none (render_field_list [] ss.clear_str).1 := by
    simpa [pending, render_field_list, ostream.clear_str] using hw
  have hstr := foldl_out_str m none _ hp
  have h0 : (render_field_list [] ss.clear_str).1.str = "" := rfl
  rw [h0, String.empty_append] at hstr
  refine ⟨_, m, hadd, hm, hstr, ?_⟩
  intro hF
  rw [← renderings_eq_map_characters m none
    (not_width_of_fields clock F args values hargs hF m hm) (fun _ _ h => by cases h)]
  exact hstr

/-- C1, the example of the specification: the format [number, separator, number] on the
values 42 and 7 gives 42:7. -/
theorem add_renders_declared_order_witness :
    make_runtime_fields (format.mk Kind.number [Kind.separator ':', Kind.number]).runtime_fields_t
      [argument.long 42, argument.long 7] = some [field.number 42, field.number 7] ∧
    ostream.fresh.width ≤ 0 ∧
    ([field.number 42, field.number 7]
        = [argument.long 42, argument.long 7].map argument.field ∧
    ∃ (r : add_result) (m : List field),
      (log.mk []).add ostream.fresh [] (fun _ => "")
        (format.mk Kind.number [Kind.separator ':', Kind.number])
        [argument.long 42, argument.long 7] = some r ∧
      m.map some = (List.range
          (format.mk Kind.number [Kind.separator ':', Kind.number]).all_fields_t.length).map
        (field_at (construct_fields (fun _ => "") 0
          (format.mk Kind.number [Kind.separator ':', Kind.number]).all_fields_t)
          [field.number 42, field.number 7]) ∧
      r.ln = concatenation (renderings none m) ∧
      ((∀ w s, Kind.width w s ∉
          (format.mk Kind.number [Kind.separator ':', Kind.number]).all_fields_t) →
        r.ln = concatenation (m.map field.characters))) ∧
    ((log.mk []).add ostream.fresh [] (fun _ => "")
        (format.mk Kind.number [Kind.separator ':', Kind.number])
        [argument.long 42, argument.long 7]).map add_result.ln = some "42:7" :=
  ⟨by decide, by decide,
    add_renders_declared_order (log.mk []) ostream.fresh (fun _ => "")
      (format.mk Kind.number [Kind.separator ':', Kind.number])
      [argument.long 42, argument.long 7] [field.number 42, field.number 7]
      (by decide) (by decide),
    by decide⟩

/-- C1 as stated fails: on the format [aligned width (5, left), number] and the value 42 the
line is the text of 42 followed by three spaces, while the renderings of the two fields
concatenate to the text of 42. And the second of two calls on the format
[number, aligned width (5, right)] with the value 42, which runs on the stream the first
call left, returns the text of 42 after three spaces. -/
theorem add_line_not_concatenation_of_characters :
    ((log.mk []).add ostream.fresh [] (fun _ => "")
        (format.mk (Kind.width 5 align.side.left) [Kind.number])
        [argument.long 42]).map add_result.ln = some "42   " ∧
    concatenation [(field.width 5 align.side.left).characters, (field.number 42).characters]
      = "42" ∧
    (((log.mk []).add ostream.fresh [] (fun _ => "")
        (format.mk Kind.number [Kind.width 5 align.side.right]) [argument.long 42]).bind
      (fun r => r.self.add r.ss [] (fun _ => "")
        (format.mk Kind.number [Kind.width 5 align.side.right]) [argument.long 42])).map
      add_result.ln = some "   42" := by
  decide

/-- C2. A call of add whose number of arguments differs from the number k of dynamic
positions of the format is rejected: it has no result, so no line is rendered and no buffer
is changed. -/
theorem add_rejects_wrong_arity (self : log) (ss : ostream) (field_list : List scoped_field)
    (clock : Nat → String) (F : format) (args : List argument)
    (h : args.length ≠ F.all_fields_t.countP is_base_of_runtime_field) :
    self.add ss field_list clock F args = none := by
  have hlen : args.length ≠ F.runtime_fields_t.length := by
    rw [format.runtime_fields_t, length_field_filter_type]
    exact h
  unfold log.add
  rw [make_runtime_fields_of_length_ne _ _ hlen]

/-- C2, the example of the specification: the format [literal START] has no dynamic
position, add without arguments returns START and add with one extra argument is
rejected. -/
theorem add_rejects_wrong_arity_witness :
    [argument.long 1].length
      ≠ (format.mk (Kind.text "START") []).all_fields_t.countP is_base_of_runtime_field ∧
    (log.mk []).add ostream.fresh [] (fun _ => "") (format.mk (Kind.text "START") [])
      [argument.long 1] = none ∧
    ((log.mk []).add ostream.fresh [] (fun _ => "") (format.mk (Kind.text "START") [])
      []).map add_result.ln = some "START" :=
  ⟨by decide,
    add_rejects_wrong_arity (log.mk []) ostream.fresh [] (fun _ => "")
      (format.mk (Kind.text "START") []) [argument.long 1] (by decide),
    by decide⟩

/-! ## The loop over the registry -/

theorem fresh_insert_str (s : String) : (ostream.fresh.insert s).str = s := by
  rw [insert_of_width_nonpos _ _ (by decide)]
  simp [ostream.fresh]

/-- A scoped field other than an aligned width, written on a stream without pending width,
appends its own characters and leaves no pending width and the same adjustment. -/
theorem scoped_out_appends (o : scoped_object) (os : ostream) (hw : os.width ≤ 0)
    (ho : ∀ w s, o ≠ scoped_object.scoped_width w s) :
    (o.out os).1.str = os.str ++ o.rendering ∧ (o.out os).1.width ≤ 0 ∧
      (o.out os).1.adjustfield = os.adjustfield := by
  cases o with
  | scoped_width w s => exact absurd rfl (ho w s)
  | base => simp [scoped_object.out, scoped_object.rendering, ostream.fresh, hw]
  | scoped_indent w =>
    simp [scoped_object.out, scoped_object.rendering, fresh_insert_str,
      insert_of_width_nonpos os _ hw]
  | scoped_index b o i =>
    simp [scoped_object.out, scoped_object.rendering, fresh_insert_str,
      insert_of_width_nonpos os _ hw]
  | scoped_text chars =>
    simp [scoped_object.out, scoped_object.rendering, fresh_insert_str,
      insert_of_width_nonpos os _ hw]

theorem render_field_list_appends :
    ∀ (fl : List scoped_field) (os : ostream), os.width ≤ 0 →
      (∀ f ∈ fl, ∀ w s, f.object ≠ scoped_object.scoped_width w s) →
        (render_field_list fl os).1.str
            = os.str ++ concatenation (fl.map (fun f => f.object.rendering)) ∧
          (render_field_list fl os).1.width ≤ 0 ∧
          (render_field_list fl os).1.adjustfield = os.adjustfield
  | [], os, hw, _ => by simp [render_field_list, concatenation, hw]
  | f :: rest, os, hw, hfl => by
    have h1 := scoped_out_appends f.object os hw (hfl f (List.mem_cons_self f rest))
    have ih := render_field_list_appends rest (f.object.out os).1 h1.2.1
      (fun g hg => hfl g (List.mem_cons_of_mem f hg))
    simp only [render_field_list, List.map_cons, concatenation_cons]
    rw [ih.1, ih.2.2, h1.1, h1.2.2, String.append_assoc]
    exact ⟨rfl, ih.2.1, rfl⟩

theorem map_this_render_field_list :
    ∀ (fl : List scoped_field) (os : ostream),
      (render_field_list fl os).2.map scoped_field.this = fl.map scoped_field.this
  | [], _ => rfl
  | f :: rest, os => by
    simp [render_field_list, map_this_render_field_list rest (f.object.out os).1]

/-- The line of an accepted call with registered scoped fields, none of them an aligned
width, on a stream without pending width: their renderings in registration order, then the
line of the same call with an empty registry. -/
theorem add_scoped_first (self : log) (ss : ostream) (fl : List scoped_field)
    (clock : Nat → String) (F : format) (args : List argument) (values : List field)
    (hargs : make_runtime_fields F.runtime_fields_t args = some values)
    (hw : ss.width ≤ 0)
    (hfl : ∀ f ∈ fl, ∀ w s, f.object ≠ scoped_object.scoped_width w s) :
    ∃ r r0 : add_result,
      self.add ss fl clock F args = some r ∧ self.add ss [] clock F args = some r0 ∧
      r.ln = concatenation (fl.map (fun f => f.object.rendering)) ++ r0.ln ∧
      r.field_list.map scoped_field.this = fl.map scoped_field.this := by
  obtain ⟨m, hm, hadd⟩ := add_eq self ss fl clock F args values hargs
  obtain ⟨m0, hm0, hadd0⟩ := add_eq self ss [] clock F args values hargs
  have hmm : m0 = m := by
    apply List.map_injective_iff.mpr (Option.some_injective _)
    rw [hm, hm0]
  subst hmm
  have hcw : ss.clear_str.width ≤ 0 := hw
  have hr := render_field_list_appends fl ss.clear_str hcw hfl
  have h1 := foldl_out_str m0 none (render_field_list fl ss.clear_str).1 hr.2.1
  have h0 := foldl_out_str m0 none (render_field_list [] ss.clear_str).1 hcw
  refine ⟨_, _, hadd, hadd0, ?_, map_this_render_field_list fl _⟩
  show (List.foldl (fun o f => f.out o) (render_field_list fl ss.clear_str).1 m0).str
    = concatenation (fl.map (fun f => f.object.rendering))
      ++ (List.foldl (fun o f => f.out o) (render_field_list [] ss.clear_str).1 m0).str
  rw [h1, h0, hr.1]
  simp [render_field_list, ostream.clear_str, String.append_assoc]

/-- C3 (as amended). When no scoped aligned width is registered and the stream has no
pending width, the line of an accepted add is the renderings of the registered scoped fields
in registration order followed by the line the same call returns with an empty
registry. -/
theorem add_line_starts_with_scoped_fields (self : log) (ss : ostream)
    (fl : List scoped_field) (clock : Nat → String) (F : format) (args : List argument)
    (values : List field)
    (hargs : make_runtime_fields F.runtime_fields_t args = some values)
    (hw : ss.width ≤ 0)
    (hfl : ∀ f ∈ fl, ∀ w s, f.object ≠ scoped_object.scoped_width w s) :
    ∃ r r0 : add_result,
      self.add ss fl clock F args = some r ∧ self.add ss [] clock F args = some r0 ∧
      r.ln = concatenation (fl.map (fun f => f.object.rendering)) ++ r0.ln := by
  obtain ⟨r, r0, h1, h2, h3, _⟩ := add_scoped_first self ss fl clock F args values hargs hw hfl
  exact ⟨r, r0, h1, h2, h3⟩

/-- C3, the example of the specification: [literal INFO, separator, runtime text] on hello
with a scoped indent of width 2 registered. -/
theorem add_line_starts_with_scoped_fields_witness :
    make_runtime_fields
      (format.mk (Kind.text "INFO") [Kind.separator ' ', Kind.text_void]).runtime_fields_t
      [argument.c_string "hello"] = some [field.text_void "hello"] ∧
    ostream.fresh.width ≤ 0 ∧
    (∀ f ∈ [scoped_field.mk 0 (scoped_object.scoped_indent 2)], ∀ w s,
      f.object ≠ scoped_object.scoped_width w s) ∧
    (∃ r r0 : add_result,
      (log.mk []).add ostream.fresh [scoped_field.mk 0 (scoped_object.scoped_indent 2)]
        (fun _ => "") (format.mk (Kind.text "INFO") [Kind.separator ' ', Kind.text_void])
        [argument.c_string "hello"] = some r ∧
      (log.mk []).add ostream.fresh [] (fun _ => "")
        (format.mk (Kind.text "INFO") [Kind.separator ' ', Kind.text_void])
        [argument.c_string "hello"] = some r0 ∧
      r.ln = concatenation ([scoped_field.mk 0 (scoped_object.scoped_indent 2)].map
        (fun f => f.object.rendering)) ++ r0.ln) ∧
    ((log.mk []).add ostream.fresh [scoped_field.mk 0 (scoped_object.scoped_indent 2)]
        (fun _ => "") (format.mk (Kind.text "INFO") [Kind.separator ' ', Kind.text_void])
        [argument.c_string "hello"]).map add_result.ln = some "  INFO hello" ∧
    ((log.mk []).add ostream.fresh [] (fun _ => "")
        (format.mk (Kind.text "INFO") [Kind.separator ' ', Kind.text_void])
        [argument.c_string "hello"]).map add_result.ln = some "INFO hello" :=
  have hfl : ∀ f ∈ [scoped_field.mk 0 (scoped_object.scoped_indent 2)], ∀ w s,
      f.object ≠ scoped_object.scoped_width w s := by
    intro f hf w s h
    rw [List.mem_singleton] at hf
    subst hf
    cases h
  ⟨by decide, by decide, hfl,
    add_line_starts_with_scoped_fields (log.mk []) ostream.fresh
      [scoped_field.mk 0 (scoped_object.scoped_indent 2)] (fun _ => "")
      (format.mk (Kind.text "INFO") [Kind.separator ' ', Kind.text_void])
      [argument.c_string "hello"] [field.text_void "hello"] (by decide) (by decide) hfl,
    by decide, by decide⟩

/-- C3 as stated fails: with a scoped aligned width (5, right) registered, add on the format
[literal INFO] returns INFO after one space, while the scoped field renders no characters
and the same call with an empty registry returns INFO. And on a stream with the pending
width 3, add on [literal x] with the scoped text ab registered returns abx after one space,
while ab followed by the line for the empty registry is ab, two spaces, x. -/
theorem add_line_scoped_width_pads_format :
    ((log.mk []).add ostream.fresh
        [scoped_field.mk 0 (scoped_object.scoped_width 5 align.side.right)] (fun _ => "")
        (format.mk (Kind.text "INFO") []) []).map add_result.ln = some " INFO" ∧
    (scoped_object.scoped_width 5 align.side.right).rendering = "" ∧
    ((log.mk []).add ostream.fresh [] (fun _ => "")
        (format.mk (Kind.text "INFO") []) []).map add_result.ln = some "INFO" ∧
    ((log.mk []).add (ostream.mk "" 3 fmtflags.right)
        [scoped_field.mk 0 (scoped_object.scoped_text "ab")] (fun _ => "")
        (format.mk (Kind.text "x") []) []).map add_result.ln = some " abx" ∧
    (scoped_object.scoped_text "ab").rendering = "ab" ∧
    ((log.mk []).add (ostream.mk "" 3 fmtflags.right) [] (fun _ => "")
        (format.mk (Kind.text "x") []) []).map add_result.ln = some "  x" := by
  decide

/-- C4. Ending the scope of the field at address a leaves a registry without an entry at
that address; it is a sublist of the previous registry in which every other entry occurs as
often as before, so when the field stood between the entries A and B the registry becomes A
followed by B; a later accepted add returns the renderings of the remaining scoped fields,
in their previous order, before the line of the format. -/
theorem destruct_removes_exactly_this (fl : List scoped_field) (a : Nat) :
    (∀ g ∈ scoped_field.destruct fl a, g.this ≠ a) ∧
    (scoped_field.destruct fl a).Sublist fl ∧
    (∀ g : scoped_field, g.this ≠ a → (scoped_field.destruct fl a).count g = fl.count g) ∧
    (∀ (A B : List scoped_field) (f : scoped_field), fl = A ++ f :: B → f.this = a →
      (∀ g ∈ A ++ B, g.this ≠ a) → scoped_field.destruct fl a = A ++ B) ∧
    (∀ (self : log) (ss : ostream) (clock : Nat → String) (F : format)
      (args : List argument) (values : List field),
      make_runtime_fields F.runtime_fields_t args = some values → ss.width ≤ 0 →
      (∀ f ∈ fl, ∀ w s, f.object ≠ scoped_object.scoped_width w s) →
      ∃ r r0 : add_result,
        self.add ss (scoped_field.destruct fl a) clock F args = some r ∧
        self.add ss [] clock F args = some r0 ∧
        r.ln = concatenation ((fl.filter (fun g => g.this != a)).map
          (fun f => f.object.rendering)) ++ r0.ln ∧
        r.field_list.map scoped_field.this = (fl.map scoped_field.this).filter
          (fun b => b != a)) := by
  refine ⟨?_, ?_, ?_, ?_, ?_⟩
  · intro g hg
    have := (List.mem_filter.mp hg).2
    simpa using this
  · exact List.filter_sublist fl
  · intro g hg
    exact List.count_filter (by simpa using hg)
  · intro A B f hfl hf hAB
    subst hfl
    have hA : A.filter (fun g => g.this != a) = A :=
      List.filter_eq_self.mpr (fun g hg => by
        simpa using hAB g (List.mem_append.mpr (Or.inl hg)))
    have hB : B.filter (fun g => g.this != a) = B :=
      List.filter_eq_self.mpr (fun g hg => by
        simpa using hAB g (List.mem_append.mpr (Or.inr hg)))
    simp [scoped_field.destruct, List.filter_append, List.filter_cons, hf, hA, hB]
  · intro self ss clock F args values hargs hw hfl
    obtain ⟨r, r0, h1, h2, h3, h4⟩ := add_scoped_first self ss (scoped_field.destruct fl a)
      clock F args values hargs hw (fun f hf => hfl f (List.mem_filter.mp hf).1)
    refine ⟨r, r0, h1, h2, h3, ?_⟩
    rw [h4, scoped_field.destruct, List.filter_map]
    rfl

/-- C5, on the format [literal INFO, separator, runtime text]: the static subsequence
computed by the format is [literal INFO, runtime text], while the declared entries of static
type are [literal INFO, separator]. -/
theorem static_fields_t_takes_dynamic_rest :
    (format.mk (Kind.text "INFO") [Kind.separator ' ', Kind.text_void]).static_fields_t
      = [Kind.text "INFO", Kind.text_void] ∧
    (format.mk (Kind.text "INFO") [Kind.separator ' ', Kind.text_void]).all_fields_t.filter
      (fun T => !is_base_of_runtime_field T) = [Kind.text "INFO", Kind.separator ' '] := by
  decide

theorem getElem?_filter_countP_take {α : Type} (q : α → Bool) :
    ∀ (l : List α) (p : Nat) (x : α), l[p]? = some x → q x = true →
      (l.filter q)[(l.take p).countP q]? = some x
  | [], p, x, h, _ => by simp at h
  | a :: t, 0, x, h, hq => by
    have hax : a = x := by simpa using h
    subst hax
    simp [List.filter_cons, hq]
  | a :: t, p + 1, x, h, hq => by
    have ht : t[p]? = some x := by simpa using h
    have ih := getElem?_filter_countP_take q t p x ht hq
    by_cases ha : q a = true
    · simp [List.filter_cons, List.countP_cons, ha, ih]
    · simp [List.filter_cons, List.countP_cons, ha, ih]

theorem make_runtime_fields_default :
    ∀ (Ts : List Kind), (∀ T ∈ Ts, is_base_of_runtime_field T = true) →
      ∃ values, make_runtime_fields Ts (Ts.map default_argument) = some values
  | [], _ => ⟨[], rfl⟩
  | T :: Ts, h => by
    obtain ⟨xs, hxs⟩ := make_runtime_fields_default Ts
      (fun U hU => h U (List.mem_cons_of_mem T hU))
    have hT := h T (List.mem_cons_self T Ts)
    cases T <;> simp [is_base_of_runtime_field] at hT
    · exact ⟨field.text_void "" :: xs, by
        simp [make_runtime_fields, convert, default_argument, hxs]⟩
    · exact ⟨field.number 0 :: xs, by
        simp [make_runtime_fields, convert, default_argument, hxs]⟩

/-- C6. The dynamic subsequence of a format has as many entries as the declaration has
dynamic positions, its i-th entry is the type at the i-th dynamic position, and add takes
exactly that many arguments: every accepted call has that many, and a call with that many
is accepted. -/
theorem runtime_fields_t_lists_dynamic_positions (F : format) :
    F.runtime_fields_t.length = F.all_fields_t.countP is_base_of_runtime_field ∧
    (∀ (p : Nat) (T : Kind), F.all_fields_t[p]? = some T →
      is_base_of_runtime_field T = true →
      F.runtime_fields_t[(F.all_fields_t.take p).countP is_base_of_runtime_field]? = some T) ∧
    (∀ (self : log) (ss : ostream) (fl : List scoped_field) (clock : Nat → String)
      (args : List argument) (r : add_result),
      self.add ss fl clock F args = some r → args.length = F.runtime_fields_t.length) ∧
    (∃ args : List argument, args.length = F.runtime_fields_t.length ∧
      ∀ (self : log) (ss : ostream) (fl : List scoped_field) (clock : Nat → String),
        ∃ r, self.add ss fl clock F args = some r) := by
  refine ⟨length_field_filter_type _, ?_, ?_, ?_⟩
  · intro p T hp hT
    rw [format.runtime_fields_t, field_filter_type_eq_filter]
    exact getElem?_filter_countP_take is_base_of_runtime_field _ p T hp hT
  · intro self ss fl clock args r h
    cases hm : make_runtime_fields F.runtime_fields_t args with
    | none => simp [log.add, hm] at h
    | some values => exact (make_runtime_fields_length _ _ _ hm).1
  · refine ⟨F.runtime_fields_t.map default_argument, by simp, ?_⟩
    intro self ss fl clock
    obtain ⟨values, hv⟩ := make_runtime_fields_default F.runtime_fields_t (by
      intro T hT
      rw [format.runtime_fields_t, field_filter_type_eq_filter] at hT
      exact (List.mem_filter.mp hT).2)
    obtain ⟨m, _, hadd⟩ := add_eq self ss fl clock F _ values hv
    exact ⟨_, hadd⟩

/-! ## The scoped index counter -/

theorem int_wrap_of_is_int (x : Int) (h : is_int x) : int_wrap x = x := by
  unfold is_int at h
  unfold int_wrap
  omega

theorem rendered_index (b off : Int) :
    ∀ (streams : List ostream) (i : Int),
      (∀ k : Nat, 1 ≤ k → k ≤ streams.length → is_int (i + k * off)) →
        (scoped_object.scoped_index b off i).rendered streams
          = scoped_object.scoped_index b off (i + streams.length * off)
  | [], i, _ => by simp [scoped_object.rendered]
  | os :: rest, i, h => by
    have h1 : int_wrap (i + off) = i + off := by
      apply int_wrap_of_is_int
      have := h 1 (Nat.le_refl 1) (by simp)
      simpa using this
    have ih := rendered_index b off rest (i + off) (by
      intro k hk1 hk
      have := h (k + 1) (by omega) (by simpa using hk)
      have e : i + off + (k : Int) * off = i + ((k + 1 : Nat) : Int) * off := by
        push_cast; ring
      rw [e]
      exact this)
    simp only [scoped_object.rendered, scoped_object.out, h1, ih, List.length_cons]
    congr 1
    push_cast
    ring

/-- One accepted call of add while a scoped index counter is the only registered field, on
a stream without pending width: the line starts with the text of the counter and the
counter has advanced. -/
theorem add_with_index (self : log) (ss : ostream) (a : Nat) (b off i : Int)
    (clock : Nat → String) (F : format) (args : List argument) (values : List field)
    (hargs : make_runtime_fields F.runtime_fields_t args = some values)
    (hw : ss.width ≤ 0) :
    ∃ (r : add_result) (rest : String),
      self.add ss [scoped_field.mk a (scoped_object.scoped_index b off i)] clock F args
        = some r ∧
      r.ln = to_string i ++ rest ∧
      r.field_list = [scoped_field.mk a (scoped_object.scoped_index b off (int_wrap (i + off)))] := by
  obtain ⟨m, _, hadd⟩ := add_eq self ss
    [scoped_field.mk a (scoped_object.scoped_index b off i)] clock F args values hargs
  have hcw : ss.clear_str.width ≤ 0 := hw
  have hp : pending none
      (render_field_list [scoped_field.mk a (scoped_object.scoped_index b off i)]
        ss.clear_str).1 := by
    simp [pending, render_field_list, scoped_object.out, ostream.insert]
  have hstr := foldl_out_str m none _ hp
  refine ⟨_, concatenation (renderings none m), hadd, ?_, ?_⟩
  · show (List.foldl (fun (o : ostream) (f : field) => f.out o) _ m).str = _
    have hins : (ss.clear_str.insert (to_string i)).str = to_string i := by
      rw [insert_of_width_nonpos _ _ hcw]
      simp [ostream.clear_str]
    rw [hstr]
    simp only [render_field_list, scoped_object.out, hins]
  · simp [render_field_list, scoped_object.out]

theorem add_all_with_index (a : Nat) (b off : Int) :
    ∀ (calls : List call) (self : log) (i : Int),
      (∀ c ∈ calls, ∃ values,
        make_runtime_fields c.Format.runtime_fields_t c._rt_fields = some values) →
      (∀ c ∈ calls, c.ss.width ≤ 0) →
      (∀ k : Nat, 1 ≤ k → k < calls.length → is_int (i + k * off)) →
      ∃ rs : List add_result,
        self.add_all [scoped_field.mk a (scoped_object.scoped_index b off i)] calls = some rs ∧
        rs.length = calls.length ∧
        ∀ k : Nat, k < calls.length →
          ∃ (r : add_result) (rest : String),
            rs[k]? = some r ∧ r.ln = to_string (i + k * off) ++ rest
  | [], self, i, _, _, _ => ⟨[], rfl, rfl, fun k hk => absurd hk (Nat.not_lt_zero k)⟩
  | c :: cs, self, i, hacc, hw, hint => by
    obtain ⟨values, hv⟩ := hacc c (List.mem_cons_self c cs)
    obtain ⟨r, rest, hadd, hln, hfl⟩ := add_with_index self c.ss a b off i c.clock c.Format
      c._rt_fields values hv (hw c (List.mem_cons_self c cs))
    have hnext : ∀ k : Nat, k < cs.length → int_wrap (i + off) = i + off := by
      intro k hk
      apply int_wrap_of_is_int
      have := hint 1 (Nat.le_refl 1) (by simp only [List.length_cons]; omega)
      simpa using this
    obtain ⟨rs, hrs, hlen, hlines⟩ := add_all_with_index a b off cs r.self
      (int_wrap (i + off))
      (fun d hd => hacc d (List.mem_cons_of_mem c hd))
      (fun d hd => hw d (List.mem_cons_of_mem c hd))
      (by
        intro k hk1 hk
        rw [hnext k hk]
        have := hint (k + 1) (by omega) (by simp only [List.length_cons]; omega)
        have e : i + off + (k : Int) * off = i + ((k + 1 : Nat) : Int) * off := by
          push_cast; ring
        rw [e]
        exact this)
    refine ⟨r :: rs, ?_, by simp [hlen], ?_⟩
    · simp only [log.add_all, hadd, hfl, hrs]
    · intro k hk
      cases k with
      | zero => exact ⟨r, rest, by simp, by simpa using hln⟩
      | succ k =>
        have hk2 : k < cs.length := by simpa using hk
        obtain ⟨r2, rest2, hr2, hln2⟩ := hlines k hk2
        refine ⟨r2, rest2, by simpa using hr2, ?_⟩
        rw [hln2, hnext k hk2]
        have e : i + off + (k : Int) * off = i + ((k + 1 : Nat) : Int) * off := by
          push_cast; ring
        rw [e]

/-- C7 (as amended). As long as the values begin + m * offset up to the one in question are
values of int: after n renderings the counter of a scoped index holds begin + n * offset,
and its next rendering is the formatted insertion of the base-10 text of that value; and in
a run of accepted add calls, each on a stream without pending width, made while the counter
is the only registered scoped field, the line of call number k (from 0) starts with the
text of begin + k * offset. -/
theorem scoped_index_renders_successive_values (a : Nat) (b off : Int) (self : log)
    (streams : List ostream) (os : ostream) (calls : List call)
    (hn : ∀ k : Nat, 1 ≤ k → k ≤ streams.length → is_int (b + k * off))
    (hacc : ∀ c ∈ calls, ∃ values,
      make_runtime_fields c.Format.runtime_fields_t c._rt_fields = some values)
    (hw : ∀ c ∈ calls, c.ss.width ≤ 0)
    (hk : ∀ k : Nat, 1 ≤ k → k < calls.length → is_int (b + k * off)) :
    (scoped_object.index b off).rendered streams
      = scoped_object.scoped_index b off (b + streams.length * off) ∧
    (((scoped_object.index b off).rendered streams).out os).1
      = os.insert (to_string (b + streams.length * off)) ∧
    ∃ rs : List add_result,
      self.add_all [scoped_field.mk a (scoped_object.index b off)] calls = some rs ∧
      rs.length = calls.length ∧
      ∀ k : Nat, k < calls.length →
        ∃ (r : add_result) (rest : String),
          rs[k]? = some r ∧ r.ln = to_string (b + k * off) ++ rest := by
  have h1 := rendered_index b off streams b hn
  refine ⟨h1, ?_, add_all_with_index a b off calls self b hacc hw hk⟩
  rw [scoped_object.index, h1]
  rfl

/-- C7 at begin 5 and offset 3: after two renderings the counter holds 11, and two
successive add calls on the format [literal x] return lines starting with 5 and 8. -/
theorem scoped_index_renders_successive_values_witness :
    (∀ k : Nat, 1 ≤ k → k ≤ [ostream.fresh, ostream.fresh].length →
      is_int ((5 : Int) + k * 3)) ∧
    (∀ c ∈ [call.mk ostream.fresh (fun _ => "") (format.mk (Kind.text "x") []) [],
        call.mk ostream.fresh (fun _ => "") (format.mk (Kind.text "x") []) []],
      ∃ values, make_runtime_fields c.Format.runtime_fields_t c._rt_fields = some values) ∧
    (∀ c ∈ [call.mk ostream.fresh (fun _ => "") (format.mk (Kind.text "x") []) [],
        call.mk ostream.fresh (fun _ => "") (format.mk (Kind.text "x") []) []],
      c.ss.width ≤ 0) ∧
    (∀ k : Nat, 1 ≤ k →
      k < [call.mk ostream.fresh (fun _ => "") (format.mk (Kind.text "x") []) [],
        call.mk ostream.fresh (fun _ => "") (format.mk (Kind.text "x") []) []].length →
      is_int ((5 : Int) + k * 3)) ∧
    ((scoped_object.index 5 3).rendered [ostream.fresh, ostream.fresh]
      = scoped_object.scoped_index 5 3
          (5 + ([ostream.fresh, ostream.fresh].length : Nat) * 3) ∧
    (((scoped_object.index 5 3).rendered [ostream.fresh, ostream.fresh]).out ostream.fresh).1
      = ostream.fresh.insert
          (to_string (5 + ([ostream.fresh, ostream.fresh].length : Nat) * 3)) ∧
    ∃ rs : List add_result,
      (log.mk []).add_all [scoped_field.mk 0 (scoped_object.index 5 3)]
        [call.mk ostream.fresh (fun _ => "") (format.mk (Kind.text "x") []) [],
          call.mk ostream.fresh (fun _ => "") (format.mk (Kind.text "x") []) []] = some rs ∧
      rs.length
        = [call.mk ostream.fresh (fun _ => "") (format.mk (Kind.text "x") []) [],
            call.mk ostream.fresh (fun _ => "") (format.mk (Kind.text "x") []) []].length ∧
      ∀ k : Nat,
        k < [call.mk ostream.fresh (fun _ => "") (format.mk (Kind.text "x") []) [],
            call.mk ostream.fresh (fun _ => "") (format.mk (Kind.text "x") []) []].length →
        ∃ (r : add_result) (rest : String),
          rs[k]? = some r ∧ r.ln = to_string ((5 : Int) + k * 3) ++ rest) ∧
    ((log.mk []).add_all [scoped_field.mk 0 (scoped_object.index 5 3)]
        [call.mk ostream.fresh (fun _ => "") (format.mk (Kind.text "x") []) [],
          call.mk ostream.fresh (fun _ => "") (format.mk (Kind.text "x") []) []]).map
      (fun rs => rs.map add_result.ln) = some ["5x", "8x"] :=
  have hn : ∀ k : Nat, 1 ≤ k → k ≤ [ostream.fresh, ostream.fresh].length →
      is_int ((5 : Int) + k * 3) := by
    intro k _ hk
    simp only [List.length_cons, List.length_nil] at hk
    unfold is_int
    omega
  have hacc : ∀ c ∈ [call.mk ostream.fresh (fun _ => "") (format.mk (Kind.text "x") []) [],
        call.mk ostream.fresh (fun _ => "") (format.mk (Kind.text "x") []) []],
      ∃ values, make_runtime_fields c.Format.runtime_fields_t c._rt_fields = some values := by
    intro c hc
    simp only [List.mem_cons, List.mem_singleton, List.not_mem_nil, or_false, or_self] at hc
    subst hc
    exact ⟨[], by decide⟩
  have hw : ∀ c ∈ [call.mk ostream.fresh (fun _ => "") (format.mk (Kind.text "x") []) [],
        call.mk ostream.fresh (fun _ => "") (format.mk (Kind.text "x") []) []],
      c.ss.width ≤ 0 := by
    intro c hc
    simp only [List.mem_cons, List.mem_singleton, List.not_mem_nil, or_false, or_self] at hc
    subst hc
    decide
  have hk : ∀ k : Nat, 1 ≤ k →
      k < [call.mk ostream.fresh (fun _ => "") (format.mk (Kind.text "x") []) [],
        call.mk ostream.fresh (fun _ => "") (format.mk (Kind.text "x") []) []].length →
      is_int ((5 : Int) + k * 3) := by
    intro k _ hk
    simp only [List.length_cons, List.length_nil] at hk
    unfold is_int
    omega
  ⟨hn, hacc, hw, hk,
    scoped_index_renders_successive_values 0 5 3 (log.mk []) [ostream.fresh, ostream.fresh]
      ostream.fresh
      [call.mk ostream.fresh (fun _ => "") (format.mk (Kind.text "x") []) [],
        call.mk ostream.fresh (fun _ => "") (format.mk (Kind.text "x") []) []]
      hn hacc hw hk,
    by decide⟩

/-- C7 as stated fails: with begin 2147483647 and offset 1 the second rendering writes
-2147483648, while begin + 1 * offset is 2147483648. And with begin 0 and offset 1
registered, the second of two calls on the format [literal x, aligned width (5, right)],
which runs on the stream the first call left, returns a line that starts with four
spaces. -/
theorem scoped_index_wraps_at_int_max :
    (((scoped_object.index 2147483647 1).rendered [ostream.fresh]).out ostream.fresh).1.str
      = "-2147483648" ∧
    to_string ((2147483647 : Int) + 1 * 1) = "2147483648" ∧
    (((log.mk []).add ostream.fresh [scoped_field.mk 0 (scoped_object.index 0 1)]
        (fun _ => "") (format.mk (Kind.text "x") [Kind.width 5 align.side.right]) []).bind
      (fun r => r.self.add r.ss r.field_list (fun _ => "")
        (format.mk (Kind.text "x") [Kind.width 5 align.side.right]) [])).map
      add_result.ln = some "    1x" := by
  decide

/-! ## The buffer -/

theorem foldl_insert_lines :
    ∀ (lines : List String) (os : ostream), os.width ≤ 0 →
      (lines.foldl (fun o ln => (o.insert ln).insert "\n") os).str
          = os.str ++ concatenation (lines.map (fun ln => ln ++ "\n")) ∧
        (lines.foldl (fun o ln => (o.insert ln).insert "\n") os).width ≤ 0
  | [], os, hw => by simp [concatenation, hw]
  | ln :: rest, os, hw => by
    have h1 : (os.insert ln).insert "\n"
        = { os with str := os.str ++ (ln ++ "\n"), width := 0 } := by
      rw [insert_of_width_nonpos os ln hw, insert_of_width_nonpos _ _ (Int.le_refl 0),
        String.append_assoc]
    have ih := foldl_insert_lines rest ((os.insert ln).insert "\n")
      (by rw [h1])
    simp only [List.foldl_cons, List.map_cons, concatenation_cons]
    refine ⟨?_, ih.2⟩
    rw [ih.1, h1, String.append_assoc]

/-- C8 (as amended). On a sink without pending width, dump appends to the sink the buffered
lines in append order, each followed by one newline, and leaves the log as it was; a second
dump appends the same text again. -/
theorem out_writes_buffer_in_order (self : log) (os : ostream) (hw : os.width ≤ 0) :
    (self.out os).1.str
      = os.str ++ concatenation (self.log_arr.map (fun ln => ln ++ "\n")) ∧
    (self.out os).2 = self ∧
    ((self.out os).2.out (self.out os).1).1.str
      = (self.out os).1.str ++ concatenation (self.log_arr.map (fun ln => ln ++ "\n")) := by
  have h1 := foldl_insert_lines self.log_arr os hw
  have h2 := foldl_insert_lines self.log_arr (self.out os).1 h1.2
  exact ⟨h1.1, rfl, h2.1⟩

/-- C8 on a buffer of two lines and a fresh sink. -/
theorem out_writes_buffer_in_order_witness :
    ostream.fresh.width ≤ 0 ∧
    (((log.mk ["ab", "c"]).out ostream.fresh).1.str
      = ostream.fresh.str ++ concatenation ((log.mk ["ab", "c"]).log_arr.map
          (fun ln => ln ++ "\n")) ∧
    ((log.mk ["ab", "c"]).out ostream.fresh).2 = log.mk ["ab", "c"] ∧
    ((((log.mk ["ab", "c"]).out ostream.fresh).2.out
        ((log.mk ["ab", "c"]).out ostream.fresh).1).1.str
      = ((log.mk ["ab", "c"]).out ostream.fresh).1.str
          ++ concatenation ((log.mk ["ab", "c"]).log_arr.map (fun ln => ln ++ "\n")))) ∧
    ((log.mk ["ab", "c"]).out ostream.fresh).1.str = "ab\nc\n" :=
  ⟨by decide, out_writes_buffer_in_order (log.mk ["ab", "c"]) ostream.fresh (by decide),
    by decide⟩

/-- C8 as stated fails: on a sink with the pending width 5, dump of the buffer [ab] writes
ab after three spaces and a newline, and a second dump then writes ab and a newline: the two
dumps write different text. -/
theorem out_pads_first_line :
    ((log.mk ["ab"]).out (ostream.mk "" 5 fmtflags.unset)).1.str = "   ab\n" ∧
    ((log.mk ["ab"]).out ((log.mk ["ab"]).out (ostream.mk "" 5 fmtflags.unset)).1).1.str
      = "   ab\n" ++ "ab\n" := by
  decide

theorem getElem?_append_of_lt {α : Type} (l l2 : List α) (i : Nat) (h : i < l.length) :
    (l ++ l2)[i]? = l[i]? := by
  rw [List.getElem?_append_left h]

/-- C9. An accepted add returns a line and leaves the buffer equal to the previous buffer
followed by that line: one entry longer, the returned line last, every earlier entry
unchanged at its index. -/
theorem add_appends_returned_line (self : log) (ss : ostream) (fl : List scoped_field)
    (clock : Nat → String) (F : format) (args : List argument) (values : List field)
    (hargs : make_runtime_fields F.runtime_fields_t args = some values) :
    ∃ r : add_result, self.add ss fl clock F args = some r ∧
      r.self.log_arr = self.log_arr ++ [r.ln] ∧
      r.self.log_arr.length = self.log_arr.length + 1 ∧
      r.self.log_arr.getLast? = some r.ln ∧
      ∀ i : Nat, i < self.log_arr.length → r.self.log_arr[i]? = self.log_arr[i]? := by
  obtain ⟨m, _, hadd⟩ := add_eq self ss fl clock F args values hargs
  refine ⟨_, hadd, rfl, by simp, by simp, ?_⟩
  intro i hi
  exact getElem?_append_of_lt _ _ i hi

/-- C9 on a log that already holds one line. -/
theorem add_appends_returned_line_witness :
    make_runtime_fields (format.mk Kind.number []).runtime_fields_t [argument.long 7]
      = some [field.number 7] ∧
    (∃ r : add_result,
      (log.mk ["old"]).add ostream.fresh [] (fun _ => "") (format.mk Kind.number [])
        [argument.long 7] = some r ∧
      r.self.log_arr = (log.mk ["old"]).log_arr ++ [r.ln] ∧
      r.self.log_arr.length = (log.mk ["old"]).log_arr.length + 1 ∧
      r.self.log_arr.getLast? = some r.ln ∧
      ∀ i : Nat, i < (log.mk ["old"]).log_arr.length →
        r.self.log_arr[i]? = (log.mk ["old"]).log_arr[i]?) ∧
    ((log.mk ["old"]).add ostream.fresh [] (fun _ => "") (format.mk Kind.number [])
        [argument.long 7]).map (fun r => r.self.log_arr) = some ["old", "7"] :=
  ⟨by decide,
    add_appends_returned_line (log.mk ["old"]) ostream.fresh [] (fun _ => "")
      (format.mk Kind.number []) [argument.long 7] [field.number 7] (by decide),
    by decide⟩

/-- C10 (as amended). Every format has at least one field; the merge walk over an empty
field tuple calls nothing; and add on the one-field format [literal with no characters]
without arguments, with an empty registry and no pending width, returns the empty
string. -/
theorem format_is_never_empty (self : log) (ss : ostream) (clock : Nat → String)
    (hw : ss.width ≤ 0) :
    (∀ F : format, 1 ≤ F.all_fields_t.length) ∧
    (∀ (t2 : List field) (st : ostream),
      for_each_field [] t2 (fun o f => f.out o) st = some st) ∧
    (self.add ss [] clock (format.mk (Kind.text "") []) []).map add_result.ln = some "" := by
  refine ⟨fun F => by simp [format.all_fields_t], fun t2 st => rfl, ?_⟩
  have hcw : ss.clear_str.width ≤ 0 := hw
  have hc : c_str "" = "" := by decide
  have hins : (ss.clear_str.insert "").str = "" := by
    rw [insert_of_width_nonpos _ _ hcw]
    simp [ostream.clear_str]
  simp [log.add, format.runtime_fields_t, format.all_fields_t, field_filter.type,
    field_filter_predicate_1, is_base_of_runtime_field, make_runtime_fields, for_each_field,
    for_each_field_from, construct_fields, default_field, field.kind, field.out,
    render_field_list, hc, hins]

/-- C10 on a fresh stream. -/
theorem format_is_never_empty_witness :
    ostream.fresh.width ≤ 0 ∧
    ((∀ F : format, 1 ≤ F.all_fields_t.length) ∧
    (∀ (t2 : List field) (st : ostream),
      for_each_field [] t2 (fun o f => f.out o) st = some st) ∧
    ((log.mk []).add ostream.fresh [] (fun _ => "") (format.mk (Kind.text "") []) []).map
      add_result.ln = some "") :=
  ⟨by decide, format_is_never_empty (log.mk []) ostream.fresh (fun _ => "") (by decide)⟩

/-- C10 as stated fails: no format has zero fields. -/
theorem no_format_without_fields : ¬ ∃ F : format, F.all_fields_t = [] := by
  rintro ⟨F, hF⟩
  simp [format.all_fields_t] at hF

/-! ## Registration and deregistration -/

theorem destruct_of_not_mem (fl : List scoped_field) (a : Nat)
    (h : a ∉ fl.map scoped_field.this) : scoped_field.destruct fl a = fl := by
  apply List.filter_eq_self.mpr
  intro g hg
  have : g.this ≠ a := fun e => h (e ▸ List.mem_map_of_mem scoped_field.this hg)
  simpa using this

/-- C11 (as amended). Neither misuse is detected, both calls complete like any other:
unregistering an address that is not in the registry leaves the registry as it was, and
registering a field that is already in the registry appends a second entry for it. -/
theorem registry_misuse_is_silent (fl : List scoped_field) (f : scoped_field) (a : Nat)
    (ha : a ∉ fl.map scoped_field.this) (hf : f ∈ fl) :
    scoped_field.destruct fl a = fl ∧
    scoped_field.construct fl f = fl ++ [f] ∧
    (scoped_field.construct fl f).count f = fl.count f + 1 ∧
    2 ≤ (scoped_field.construct fl f).count f := by
  refine ⟨destruct_of_not_mem fl a ha, rfl, by simp [scoped_field.construct], ?_⟩
  have h1 : 0 < fl.count f := List.count_pos_iff.mpr hf
  have h2 : (scoped_field.construct fl f).count f = fl.count f + 1 := by
    simp [scoped_field.construct]
  omega

/-- C11 on the registry holding one scoped indent at address 0. -/
theorem registry_misuse_is_silent_witness :
    1 ∉ [scoped_field.mk 0 (scoped_object.scoped_indent 2)].map scoped_field.this ∧
    scoped_field.mk 0 (scoped_object.scoped_indent 2)
      ∈ [scoped_field.mk 0 (scoped_object.scoped_indent 2)] ∧
    (scoped_field.destruct [scoped_field.mk 0 (scoped_object.scoped_indent 2)] 1
      = [scoped_field.mk 0 (scoped_object.scoped_indent 2)] ∧
    scoped_field.construct [scoped_field.mk 0 (scoped_object.scoped_indent 2)]
        (scoped_field.mk 0 (scoped_object.scoped_indent 2))
      = [scoped_field.mk 0 (scoped_object.scoped_indent 2)]
          ++ [scoped_field.mk 0 (scoped_object.scoped_indent 2)] ∧
    (scoped_field.construct [scoped_field.mk 0 (scoped_object.scoped_indent 2)]
        (scoped_field.mk 0 (scoped_object.scoped_indent 2))).count
        (scoped_field.mk 0 (scoped_object.scoped_indent 2))
      = [scoped_field.mk 0 (scoped_object.scoped_indent 2)].count
          (scoped_field.mk 0 (scoped_object.scoped_indent 2)) + 1 ∧
    2 ≤ (scoped_field.construct [scoped_field.mk 0 (scoped_object.scoped_indent 2)]
        (scoped_field.mk 0 (scoped_object.scoped_indent 2))).count
        (scoped_field.mk 0 (scoped_object.scoped_indent 2))) :=
  ⟨by decide, by decide,
    registry_misuse_is_silent [scoped_field.mk 0 (scoped_object.scoped_indent 2)]
      (scoped_field.mk 0 (scoped_object.scoped_indent 2)) 1 (by decide) (by decide)⟩

/-- C11 as stated fails: registering the scoped indent at address 0 a second time changes
the registry, which then holds it twice, and a later add renders it twice. -/
theorem double_registration_changes_registry :
    scoped_field.construct [scoped_field.mk 0 (scoped_object.scoped_indent 2)]
        (scoped_field.mk 0 (scoped_object.scoped_indent 2))
      = [scoped_field.mk 0 (scoped_object.scoped_indent 2),
          scoped_field.mk 0 (scoped_object.scoped_indent 2)] ∧
    scoped_field.construct [scoped_field.mk 0 (scoped_object.scoped_indent 2)]
        (scoped_field.mk 0 (scoped_object.scoped_indent 2))
      ≠ [scoped_field.mk 0 (scoped_object.scoped_indent 2)] ∧
    ((log.mk []).add ostream.fresh
        (scoped_field.construct [scoped_field.mk 0 (scoped_object.scoped_indent 2)]
          (scoped_field.mk 0 (scoped_object.scoped_indent 2)))
        (fun _ => "") (format.mk (Kind.text "x") []) []).map add_result.ln
      = some "    x" := by
  decide

theorem mem_apply_iff (fl : List scoped_field) (e : event) (a : Nat) :
    a ∈ (e.apply fl).map scoped_field.this ↔
      (match e with
        | event.construct f => f.this = a ∨ a ∈ fl.map scoped_field.this
        | event.destruct this => this ≠ a ∧ a ∈ fl.map scoped_field.this) := by
  cases e with
  | construct f =>
    simp only [event.apply, scoped_field.construct, List.map_append, List.mem_append,
      List.map_cons, List.map_nil, List.mem_singleton]
    constructor
    · rintro (h | h)
      · exact Or.inr h
      · exact Or.inl h.symm
    · rintro (h | h)
      · exact Or.inr h.symm
      · exact Or.inl h
  | destruct b =>
    simp only [event.apply, scoped_field.destruct, List.mem_map, List.mem_filter]
    constructor
    · rintro ⟨g, ⟨hg, hb⟩, rfl⟩
      exact ⟨fun e => by simp [e] at hb, g, hg, rfl⟩
    · rintro ⟨hb, g, hg, rfl⟩
      exact ⟨g, ⟨hg, by simpa using fun e : g.this = b => hb e.symm⟩, rfl⟩

/-- An address is in the registry after some events exactly when its field is alive after
them, given that it was in the registry before them exactly when it was alive. -/
theorem mem_run_events_iff (a : Nat) :
    ∀ (es : List event) (fl : List scoped_field) (before : Bool),
      (a ∈ fl.map scoped_field.this ↔ before = true) →
        (a ∈ (run_events fl es).map scoped_field.this ↔ alive_after before es a = true)
  | [], _, _, h => h
  | e :: es, fl, before, h => by
    have step : a ∈ (e.apply fl).map scoped_field.this ↔
        (match e with
          | event.construct f => if f.this = a then true else before
          | event.destruct this => if this = a then false else before) = true := by
      rw [mem_apply_iff]
      cases e with
      | construct f =>
        by_cases hfa : f.this = a
        · simp [hfa]
        · simp [hfa, h]
      | destruct b =>
        by_cases hba : b = a
        · simp [hba]
        · simp [hba, h]
    exact mem_run_events_iff a es (e.apply fl) _ step

theorem run_events_append (fl : List scoped_field) (es : List event) (e : event) :
    run_events fl (es ++ [e]) = e.apply (run_events fl es) := by
  simp [run_events, List.foldl_append]

theorem alive_after_nil_registry (es : List event) (a : Nat) :
    a ∈ (run_events [] es).map scoped_field.this ↔ alive_after false es a = true :=
  mem_run_events_iff a es [] false (by simp)

theorem nodup_run_events (es : List event) (h : lifetimes es) :
    ((run_events [] es).map scoped_field.this).Nodup := by
  induction h with
  | nil => simp [run_events]
  | construct es f _ hf ih =>
    rw [run_events_append]
    simp only [event.apply, scoped_field.construct, List.map_append, List.map_cons,
      List.map_nil]
    apply List.Nodup.append ih (List.nodup_singleton _)
    intro b hb hb2
    rw [List.mem_singleton] at hb2
    subst hb2
    have := (alive_after_nil_registry es f.this).mp hb
    rw [hf] at this
    exact Bool.noConfusion this
  | destruct es b _ ih =>
    rw [run_events_append]
    exact List.Nodup.sublist ((List.filter_sublist _).map scoped_field.this) ih

/-- C12. From the empty registry, after any sequence of constructions, each at an address
whose field is not alive, and of scope ends, no address and no entry occurs twice in the
registry, and an address is in the registry exactly when its field has been constructed and
its scope has not ended since. -/
theorem registry_holds_each_live_field_once (es : List event) (h : lifetimes es) :
    ((run_events [] es).map scoped_field.this).Nodup ∧
    (run_events [] es).Nodup ∧
    ∀ a : Nat, a ∈ (run_events [] es).map scoped_field.this ↔ alive_after false es a = true :=
  ⟨nodup_run_events es h, List.Nodup.of_map _ (nodup_run_events es h),
    alive_after_nil_registry es⟩

/-- C12 on the sequence: construct at 0, construct at 1, end of the scope of 0. -/
theorem registry_holds_each_live_field_once_witness :
    lifetimes [event.construct (scoped_field.mk 0 (scoped_object.scoped_indent 2)),
      event.construct (scoped_field.mk 1 (scoped_object.index 0 1)), event.destruct 0] ∧
    (((run_events [] [event.construct (scoped_field.mk 0 (scoped_object.scoped_indent 2)),
      event.construct (scoped_field.mk 1 (scoped_object.index 0 1)),
      event.destruct 0]).map scoped_field.this).Nodup ∧
    (run_events [] [event.construct (scoped_field.mk 0 (scoped_object.scoped_indent 2)),
      event.construct (scoped_field.mk 1 (scoped_object.index 0 1)),
      event.destruct 0]).Nodup ∧
    ∀ a : Nat,
      a ∈ (run_events [] [event.construct (scoped_field.mk 0 (scoped_object.scoped_indent 2)),
        event.construct (scoped_field.mk 1 (scoped_object.index 0 1)),
        event.destruct 0]).map scoped_field.this ↔
      alive_after false [event.construct (scoped_field.mk 0 (scoped_object.scoped_indent 2)),
        event.construct (scoped_field.mk 1 (scoped_object.index 0 1)),
        event.destruct 0] a = true) ∧
    run_events [] [event.construct (scoped_field.mk 0 (scoped_object.scoped_indent 2)),
      event.construct (scoped_field.mk 1 (scoped_object.index 0 1)), event.destruct 0]
      = [scoped_field.mk 1 (scoped_object.index 0 1)] :=
  have h : lifetimes [event.construct (scoped_field.mk 0 (scoped_object.scoped_indent 2)),
      event.construct (scoped_field.mk 1 (scoped_object.index 0 1)), event.destruct 0] :=
    lifetimes.destruct _ 0
      (lifetimes.construct [event.construct (scoped_field.mk 0 (scoped_object.scoped_indent 2))]
        (scoped_field.mk 1 (scoped_object.index 0 1))
        (lifetimes.construct [] (scoped_field.mk 0 (scoped_object.scoped_indent 2))
          lifetimes.nil (by decide))
        (by decide))
  ⟨h, registry_holds_each_live_field_once _ h, by decide⟩

theorem filter_comm_bool {α : Type} (p q : α → Bool) (l : List α) :
    (l.filter p).filter q = (l.filter q).filter p := by
  rw [List.filter_filter, List.filter_filter]
  apply List.filter_congr
  intro x _
  exact Bool.and_comm _ _

/-- Events at addresses outside a set of addresses leave the entries at the addresses of
the set as they were, in their order. -/
theorem filter_run_events (keep : List Nat) :
    ∀ (es : List event) (fl : List scoped_field), (∀ e ∈ es, e.address ∉ keep) →
      (run_events fl es).filter (fun g => decide (g.this ∈ keep))
        = fl.filter (fun g => decide (g.this ∈ keep))
  | [], _, _ => rfl
  | e :: es, fl, h => by
    have he := h e (List.mem_cons_self e es)
    have ih := filter_run_events keep es (e.apply fl)
      (fun d hd => h d (List.mem_cons_of_mem e hd))
    have hstep : (e.apply fl).filter (fun g => decide (g.this ∈ keep))
        = fl.filter (fun g => decide (g.this ∈ keep)) := by
      cases e with
      | construct g =>
        have hg : g.this ∉ keep := he
        simp [event.apply, scoped_field.construct, List.filter_append, List.filter_cons, hg]
      | destruct b =>
        have hb : b ∉ keep := he
        simp only [event.apply, scoped_field.destruct]
        rw [List.filter_filter]
        apply List.filter_congr
        intro g _
        by_cases hk : g.this ∈ keep
        · have : g.this ≠ b := fun e => hb (e ▸ hk)
          simp [hk, this]
        · simp [hk]
    show (run_events (e.apply fl) es).filter _ = _
    rw [ih, hstep]

theorem filter_mem_map_this (R : List scoped_field) :
    R.filter (fun g => decide (g.this ∈ R.map scoped_field.this)) = R := by
  apply List.filter_eq_self.mpr
  intro g hg
  simpa using List.mem_map_of_mem scoped_field.this hg

/-- C17. Registering a field at an address that is not in the registry R and ending its
scope yields exactly R, also when other fields were constructed and their scopes ended in
between, in any order, as long as these events leave the addresses of R alone and every
field constructed in between has ended. -/
theorem register_unregister_round_trip (R : List scoped_field) (f : scoped_field)
    (es : List event)
    (hf : f.this ∉ R.map scoped_field.this)
    (hes : ∀ e ∈ es, e.address ∉ R.map scoped_field.this)
    (hend : ∀ b : Nat, b ∉ R.map scoped_field.this → b ≠ f.this →
      alive_after false es b = false) :
    scoped_field.destruct (scoped_field.construct R f) f.this = R ∧
    scoped_field.destruct (run_events (scoped_field.construct R f) es) f.this = R := by
  have hbase : (scoped_field.construct R f).filter
      (fun g => decide (g.this ∈ R.map scoped_field.this)) = R := by
    have hd : decide (f.this ∈ R.map scoped_field.this) = false := decide_eq_false hf
    simp only [scoped_field.construct, List.filter_append, filter_mem_map_this,
      List.filter_cons, hd, List.filter_nil, List.append_nil, Bool.false_eq_true, if_false]
  have hkeep := filter_run_events (R.map scoped_field.this) es (scoped_field.construct R f) hes
  rw [hbase] at hkeep
  have hall : ∀ g ∈ scoped_field.destruct (run_events (scoped_field.construct R f) es) f.this,
      decide (g.this ∈ R.map scoped_field.this) = true := by
    intro g hg
    have hg1 := (List.mem_filter.mp hg).1
    have hg2 : g.this ≠ f.this := by simpa using (List.mem_filter.mp hg).2
    by_contra hnot
    have hnot2 : g.this ∉ R.map scoped_field.this := by simpa using hnot
    have hin : g.this ∈ (run_events (scoped_field.construct R f) es).map scoped_field.this :=
      List.mem_map_of_mem scoped_field.this hg1
    have hiff := mem_run_events_iff g.this es (scoped_field.construct R f) false (by
      simp only [scoped_field.construct, List.map_append, List.mem_append, List.map_cons,
        List.map_nil, List.mem_singleton]
      constructor
      · rintro (h | h)
        · exact absurd h hnot2
        · exact absurd h hg2
      · intro h
        exact Bool.noConfusion h)
    have := hiff.mp hin
    rw [hend g.this hnot2 hg2] at this
    exact Bool.noConfusion this
  refine ⟨?_, ?_⟩
  · simp only [scoped_field.construct, scoped_field.destruct, List.filter_append]
    have hR : R.filter (fun g => g.this != f.this) = R := destruct_of_not_mem R f.this hf
    rw [hR]
    simp [List.filter_cons]
  · rw [← List.filter_eq_self.mpr hall]
    unfold scoped_field.destruct
    rw [filter_comm_bool, hkeep]
    exact destruct_of_not_mem R f.this hf

/-- C17 on the registry holding a scoped indent at address 0: a scoped index at address 1
is registered, fields at 2 and 3 come and go, nested, and the scope of 1 ends. -/
theorem register_unregister_round_trip_witness :
    (scoped_field.mk 1 (scoped_object.index 0 1)).this
      ∉ [scoped_field.mk 0 (scoped_object.scoped_indent 2)].map scoped_field.this ∧
    (∀ e ∈ [event.construct (scoped_field.mk 2 (scoped_object.scoped_text "a")),
        event.construct (scoped_field.mk 3 (scoped_object.scoped_text "b")),
        event.destruct 3, event.destruct 2],
      e.address ∉ [scoped_field.mk 0 (scoped_object.scoped_indent 2)].map scoped_field.this) ∧
    (∀ b : Nat,
      b ∉ [scoped_field.mk 0 (scoped_object.scoped_indent 2)].map scoped_field.this →
      b ≠ (scoped_field.mk 1 (scoped_object.index 0 1)).this →
      alive_after false [event.construct (scoped_field.mk 2 (scoped_object.scoped_text "a")),
        event.construct (scoped_field.mk 3 (scoped_object.scoped_text "b")),
        event.destruct 3, event.destruct 2] b = false) ∧
    (scoped_field.destruct
        (scoped_field.construct [scoped_field.mk 0 (scoped_object.scoped_indent 2)]
          (scoped_field.mk 1 (scoped_object.index 0 1)))
        (scoped_field.mk 1 (scoped_object.index 0 1)).this
      = [scoped_field.mk 0 (scoped_object.scoped_indent 2)] ∧
    scoped_field.destruct
        (run_events
          (scoped_field.construct [scoped_field.mk 0 (scoped_object.scoped_indent 2)]
            (scoped_field.mk 1 (scoped_object.index 0 1)))
          [event.construct (scoped_field.mk 2 (scoped_object.scoped_text "a")),
            event.construct (scoped_field.mk 3 (scoped_object.scoped_text "b")),
            event.destruct 3, event.destruct 2])
        (scoped_field.mk 1 (scoped_object.index 0 1)).this
      = [scoped_field.mk 0 (scoped_object.scoped_indent 2)]) :=
  have hes : ∀ e ∈ [event.construct (scoped_field.mk 2 (scoped_object.scoped_text "a")),
        event.construct (scoped_field.mk 3 (scoped_object.scoped_text "b")),
        event.destruct 3, event.destruct 2],
      e.address ∉ [scoped_field.mk 0 (scoped_object.scoped_indent 2)].map scoped_field.this := by
    decide
  have hend : ∀ b : Nat,
      b ∉ [scoped_field.mk 0 (scoped_object.scoped_indent 2)].map scoped_field.this →
      b ≠ (scoped_field.mk 1 (scoped_object.index 0 1)).this →
      alive_after false [event.construct (scoped_field.mk 2 (scoped_object.scoped_text "a")),
        event.construct (scoped_field.mk 3 (scoped_object.scoped_text "b")),
        event.destruct 3, event.destruct 2] b = false := by
    intro b _ _
    simp only [alive_after, List.foldl_cons, List.foldl_nil]
    by_cases h2 : 2 = b <;> by_cases h3 : 3 = b <;> simp [h2, h3]
  ⟨by decide, hes, hend,
    register_unregister_round_trip [scoped_field.mk 0 (scoped_object.scoped_indent 2)]
      (scoped_field.mk 1 (scoped_object.index 0 1))
      [event.construct (scoped_field.mk 2 (scoped_object.scoped_text "a")),
        event.construct (scoped_field.mk 3 (scoped_object.scoped_text "b")),
        event.destruct 3, event.destruct 2]
      (by decide) hes hend⟩

/-! ## Aligned width and indent -/

theorem length_spaces (n : Nat) : (spaces n).length = n := by
  simp [spaces]

theorem spaces_append_spaces (a b : Nat) : spaces a ++ spaces b = spaces (a + b) := by
  apply String.ext
  simp [spaces]

/-- The line of add on a two-field format that starts with an aligned width, given what the
second field writes. -/
theorem add_width_then (self : log) (ss : ostream) (clock : Nat → String) (w : Int)
    (s : align.side) (T : Kind) (a : argument) (x : field) (c : String)
    (hT : is_base_of_runtime_field T = true) (hc : convert T a = some x)
    (hx : ∀ os : ostream, x.out os = os.insert c) :
    ∃ r : add_result,
      self.add ss [] clock (format.mk (Kind.width w s) [T]) [a] = some r ∧
      r.ln = aligned w s c ∧ (r.ln.length : Int) = max w c.length := by
  have hlen : (((c.length + (w - (c.length : Int)).toNat : Nat) : Int)) = max w c.length := by
    omega
  have hadd : self.add ss [] clock (format.mk (Kind.width w s) [T]) [a]
      = some ⟨(x.out (((field.width w s).out ss.clear_str))).str,
          x.out ((field.width w s).out ss.clear_str), [],
          ⟨self.log_arr ++ [(x.out ((field.width w s).out ss.clear_str)).str]⟩⟩ := by
    cases T <;> simp [is_base_of_runtime_field] at hT <;> cases a <;>
      simp [convert] at hc <;> subst hc <;>
      simp [log.add, format.runtime_fields_t, format.all_fields_t, field_filter.type,
        field_filter_predicate_1, field_filter_predicate_2, is_base_of_field,
        is_base_of_runtime_field, make_runtime_fields, convert, for_each_field,
        for_each_field_from, construct_fields, default_field, field.kind,
        render_field_list]
  have hstr : (x.out ((field.width w s).out ss.clear_str)).str = aligned w s c := by
    rw [hx]
    cases s <;>
      simp [field.out, ostream.setw, ostream.insert, ostream.clear_str, ostream.padded,
        align.side.flag, aligned]
  refine ⟨_, hadd, hstr, ?_⟩
  show ((x.out ((field.width w s).out ss.clear_str)).str.length : Int) = _
  rw [hstr]
  cases s
  · simp only [aligned, String.length_append, length_spaces]
    exact hlen
  · simp only [aligned, String.length_append, length_spaces]
    rw [Nat.add_comm]
    exact hlen

/-- C13. With an empty registry, add on the format [aligned width (w, s), runtime text] with
the C string v returns v filled up with spaces to the length max(w, length of v), the
spaces after v for the side left and before v for the side right; on
[aligned width (w, s), number] with the value n the same holds of the base-10 text of n. -/
theorem aligned_width_pads_next_field (self : log) (ss : ostream) (clock : Nat → String)
    (w : Int) (s : align.side) (v : String) (n : Int) (hv : c_str v = v) :
    (∃ r : add_result,
      self.add ss [] clock (format.mk (Kind.width w s) [Kind.text_void])
        [argument.c_string v] = some r ∧
      r.ln = aligned w s v ∧ (r.ln.length : Int) = max w v.length) ∧
    (∃ r : add_result,
      self.add ss [] clock (format.mk (Kind.width w s) [Kind.number])
        [argument.long n] = some r ∧
      r.ln = aligned w s (to_string n) ∧ (r.ln.length : Int) = max w (to_string n).length) :=
  ⟨add_width_then self ss clock w s Kind.text_void (argument.c_string v) (field.text_void v) v
      rfl rfl (fun os => by simp [field.out, hv]),
    add_width_then self ss clock w s Kind.number (argument.long n) (field.number n)
      (to_string n) rfl rfl (fun os => rfl)⟩

/-- C13 at the width 5: hello world is longer than the width and is returned as it is, ab
is filled up after it for the side left, and 42 is filled up before it for the side
right. -/
theorem aligned_width_pads_next_field_witness :
    c_str "ab" = "ab" ∧
    ((∃ r : add_result,
      (log.mk []).add ostream.fresh [] (fun _ => "")
        (format.mk (Kind.width 5 align.side.left) [Kind.text_void])
        [argument.c_string "ab"] = some r ∧
      r.ln = aligned 5 align.side.left "ab" ∧ (r.ln.length : Int) = max 5 ("ab".length : Int)) ∧
    (∃ r : add_result,
      (log.mk []).add ostream.fresh [] (fun _ => "")
        (format.mk (Kind.width 5 align.side.left) [Kind.number])
        [argument.long 42] = some r ∧
      r.ln = aligned 5 align.side.left (to_string 42) ∧
      (r.ln.length : Int) = max 5 ((to_string 42).length : Int))) ∧
    ((log.mk []).add ostream.fresh [] (fun _ => "")
        (format.mk (Kind.width 5 align.side.left) [Kind.text_void])
        [argument.c_string "ab"]).map add_result.ln = some "ab   " ∧
    ((log.mk []).add ostream.fresh [] (fun _ => "")
        (format.mk (Kind.width 5 align.side.right) [Kind.number])
        [argument.long 42]).map add_result.ln = some "   42" ∧
    ((log.mk []).add ostream.fresh [] (fun _ => "")
        (format.mk (Kind.width 5 align.side.right) [Kind.text_void])
        [argument.c_string "hello world"]).map add_result.ln = some "hello world" :=
  ⟨by decide,
    aligned_width_pads_next_field (log.mk []) ostream.fresh (fun _ => "") 5 align.side.left
      "ab" 42 (by decide),
    by decide, by decide, by decide⟩

theorem padded_spaces (os : ostream) (w : Nat) :
    os.padded (spaces w) = spaces (max w os.width.toNat) := by
  have h : w + (os.width - (w : Int)).toNat = max w os.width.toNat := by omega
  unfold ostream.padded
  rw [length_spaces]
  split
  · rw [spaces_append_spaces, h]
  · rw [spaces_append_spaces, Nat.add_comm, h]

/-- C14 (as amended). Rendering the fixed indent of width w writes spaces and nothing else:
as many as the larger of w and the pending width of the sink, so exactly w on a sink without
pending width; the scoped indent of the same width renders the identical text on the same
sink. -/
theorem indent_writes_spaces (w : Nat) (os : ostream) :
    (field.indent w).out os
      = ostream.mk (os.str ++ spaces (max w os.width.toNat)) 0 os.adjustfield ∧
    ((scoped_object.scoped_indent w).out os).1 = (field.indent w).out os ∧
    (os.width ≤ 0 → ((field.indent w).out os).str = os.str ++ spaces w) := by
  refine ⟨?_, rfl, ?_⟩
  · simp only [field.out, ostream.insert, padded_spaces]
  · intro hw
    simp only [field.out, ostream.insert, padded_spaces]
    have : max w os.width.toNat = w := by omega
    rw [this]

/-- C14 as stated fails: the fixed indent of width 2 directly after an aligned width of 5
writes five spaces, not two. -/
theorem indent_after_width_writes_more :
    ((log.mk []).add ostream.fresh [] (fun _ => "")
        (format.mk (Kind.width 5 align.side.left) [Kind.indent 2]) []).map add_result.ln
      = some "     " ∧
    ((field.indent 2).out (ostream.mk "" 5 fmtflags.left)).str = "     " ∧
    spaces 2 = "  " := by
  decide

/-! ## The cursors of the merge walk -/

/-- The recorded walk is the walk: the callback is called on the visited fields in the
recorded order. -/
theorem for_each_field_from_eq_cursors {σ : Type} (t1 t2 : List field) (f : σ → field → σ) :
    ∀ (depth I J : Nat) (st : σ),
      for_each_field_from t1 t2 f depth I J st
        = (for_each_field_cursors t1 t2 depth I J).map
            (fun r => (r.1.filterMap (visited_field t1 t2)).foldl f st) := by
  intro depth
  induction depth with
  | zero =>
    intro I J st
    by_cases h : t1.length ≤ I <;> simp [for_each_field_from, for_each_field_cursors, h]
  | succ d ih =>
    intro I J st
    by_cases h : t1.length ≤ I
    · simp [for_each_field_from, for_each_field_cursors, h]
    · simp only [for_each_field_from, for_each_field_cursors, h, if_false]
      cases he : t1[I]? with
      | none => simp
      | some e =>
        by_cases hb : is_base_of_runtime_field e.kind = true
        · simp only [hb, if_true]
          cases hv : t2[J]? with
          | none => simp
          | some v =>
            simp only [ih, Option.map_map]
            congr 1
            funext r
            simp [visited_field, hv]
        · have hb2 : is_base_of_runtime_field e.kind = false := by simpa using hb
          simp only [hb2, Bool.false_eq_true, if_false, ih, Option.map_map]
          congr 1
          funext r
          simp [visited_field, he]

theorem for_each_field_cursors_eq (t1 t2 : List field)
    (hv : t1.countP (fun e => is_base_of_runtime_field e.kind) ≤ t2.length) :
    ∀ (k depth I : Nat), k ≤ depth → I + k = t1.length →
      for_each_field_cursors t1 t2 depth I (dynamic_index t1 I)
        = some ((List.range' I k).map (cursors_at t1), dynamic_index t1 t1.length) := by
  intro k
  induction k with
  | zero =>
    intro depth I _ hI
    have hle : t1.length ≤ I := by omega
    have hI2 : I = t1.length := by omega
    cases depth <;> simp [for_each_field_cursors, hle, hI2]
  | succ k ih =>
    intro depth I hd hI
    have hlt : I < t1.length := by omega
    have hnle : ¬ t1.length ≤ I := by omega
    obtain ⟨d, rfl⟩ : ∃ d, depth = d + 1 := ⟨depth - 1, by omega⟩
    obtain ⟨e, he⟩ : ∃ e, t1[I]? = some e := ⟨t1[I], List.getElem?_eq_getElem hlt⟩
    have hs := dynamic_index_succ t1 I e he
    simp only [for_each_field_cursors, hnle, if_false, he, List.range'_succ, List.map_cons]
    by_cases hb : is_base_of_runtime_field e.kind = true
    · have hj := dynamic_index_lt t1 I e he hb
      have hj2 : dynamic_index t1 I < t2.length := by omega
      obtain ⟨v, hv2⟩ : ∃ v, t2[dynamic_index t1 I]? = some v :=
        ⟨t2[dynamic_index t1 I], List.getElem?_eq_getElem hj2⟩
      simp only [hb, if_true] at hs
      simp only [hb, if_true, hv2]
      rw [← hs, ih d (I + 1) (by omega) (by omega)]
      simp [cursors_at, he, hb]
    · simp only [hb] at hs
      have hs2 : dynamic_index t1 (I + 1) = dynamic_index t1 I := by simpa using hs
      simp only [hb]
      rw [← hs2, ih d (I + 1) (by omega) (by omega)]
      simp [cursors_at, he, hb]

theorem dynamic_index_length (t1 : List field) :
    dynamic_index t1 t1.length = t1.countP (fun e => is_base_of_runtime_field e.kind) := by
  simp [dynamic_index]

/-- The value cursors recorded up to position `m` are 0, 1, ... in order. -/
theorem filterMap_cursors_range (t1 : List field) :
    ∀ m : Nat, m ≤ t1.length →
      (List.range m).filterMap (fun p => (cursors_at t1 p).2) = List.range (dynamic_index t1 m)
  | 0, _ => by simp [dynamic_index]
  | m + 1, hm => by
    have hlt : m < t1.length := by omega
    have he : t1[m]? = some t1[m] := List.getElem?_eq_getElem hlt
    have ih := filterMap_cursors_range t1 m (by omega)
    have hs := dynamic_index_succ t1 m t1[m] he
    rw [List.range_succ, List.filterMap_append, ih, hs]
    by_cases hb : is_base_of_runtime_field (t1[m]).kind = true
    · simp [cursors_at, he, hb, List.range_succ]
    · simp [cursors_at, he, hb]

theorem dynamic_index_construct_fields (clock : Nat → String) (Ts : List Kind) (p : Nat) :
    dynamic_index (construct_fields clock 0 Ts) p
      = (Ts.take p).countP is_base_of_runtime_field := by
  have h := map_kind_construct_fields clock Ts 0
  calc dynamic_index (construct_fields clock 0 Ts) p
      = (((construct_fields clock 0 Ts).take p).map field.kind).countP
          is_base_of_runtime_field := by
        rw [List.countP_map]; rfl
    _ = (Ts.take p).countP is_base_of_runtime_field := by rw [List.map_take, h]

theorem getElem?_construct_fields (clock : Nat → String) (Ts : List Kind) (p : Nat)
    (e : field) (h : (construct_fields clock 0 Ts)[p]? = some e) : Ts[p]? = some e.kind := by
  have hm := map_kind_construct_fields clock Ts 0
  have : ((construct_fields clock 0 Ts).map field.kind)[p]? = some e.kind := by
    rw [List.getElem?_map, h]
    rfl
  rw [hm] at this
  exact this

theorem length_values (F : format) (args : List argument) (values : List field)
    (hargs : make_runtime_fields F.runtime_fields_t args = some values) (clock : Nat → String) :
    values.length = F.runtime_fields_t.length ∧
    dynamic_index (construct_fields clock 0 F.all_fields_t)
      (construct_fields clock 0 F.all_fields_t).length = values.length := by
  have h1 := (make_runtime_fields_length _ _ _ hargs).2
  refine ⟨h1, ?_⟩
  rw [dynamic_index_length, countP_construct_fields, h1, format.runtime_fields_t,
    length_field_filter_type]
  rfl

/-- C15. On the field tuple of a format and the converted arguments of an accepted call, the
merge walk completes; it visits the declared positions 0, 1, ... once each and in order; a
visit that reads a supplied value has its value cursor below the number k of values, is at
a position whose type the partition put in the dynamic subsequence, at the place the cursor
names; a visit that reads the field tuple is at a position the partition left out; the
cursor ends at k and the values are read at 0, 1, ..., k - 1 in order; and the callback is
called on the visited fields in that order. -/
theorem merge_walk_cursors_agree_with_partition (clock : Nat → String) (F : format)
    (args : List argument) (values : List field)
    (hargs : make_runtime_fields F.runtime_fields_t args = some values) :
    ∃ trace : List (Nat × Option Nat),
      for_each_field_cursors (construct_fields clock 0 F.all_fields_t) values
        (construct_fields clock 0 F.all_fields_t).length 0 0 = some (trace, values.length) ∧
      values.length = F.runtime_fields_t.length ∧
      trace.map Prod.fst = List.range F.all_fields_t.length ∧
      (∀ (p J : Nat), (p, some J) ∈ trace →
        J < values.length ∧
        ∃ T, F.all_fields_t[p]? = some T ∧ F.runtime_fields_t[J]? = some T ∧
          (field_filter_predicate_1 T && field_filter_predicate_2 T) = true) ∧
      (∀ p : Nat, (p, none) ∈ trace →
        ∃ T, F.all_fields_t[p]? = some T ∧
          (field_filter_predicate_1 T && field_filter_predicate_2 T) = false) ∧
      trace.filterMap Prod.snd = List.range values.length ∧
      (∀ (f : ostream → field → ostream) (st : ostream),
        for_each_field (construct_fields clock 0 F.all_fields_t) values f st
          = some ((trace.filterMap
              (visited_field (construct_fields clock 0 F.all_fields_t) values)).foldl f st)) := by
  have hv := values_cover clock F args values hargs
  have hlen := length_values F args values hargs clock
  have hn := length_construct_fields clock F.all_fields_t 0
  have hcur := for_each_field_cursors_eq (construct_fields clock 0 F.all_fields_t) values hv
    (construct_fields clock 0 F.all_fields_t).length
    (construct_fields clock 0 F.all_fields_t).length 0 (Nat.le_refl _) (by simp)
  rw [dynamic_index_zero, hlen.2, ← List.range_eq_range'] at hcur
  have hmem : ∀ (p : Nat) (c : Option Nat),
      (p, c) ∈ (List.range (construct_fields clock 0 F.all_fields_t).length).map
        (cursors_at (construct_fields clock 0 F.all_fields_t)) →
      ∃ e, (construct_fields clock 0 F.all_fields_t)[p]? = some e ∧
        c = (if is_base_of_runtime_field e.kind
          then some (dynamic_index (construct_fields clock 0 F.all_fields_t) p) else none) := by
    intro p c hpc
    obtain ⟨q, hq, hqe⟩ := List.mem_map.mp hpc
    have hq2 : q < (construct_fields clock 0 F.all_fields_t).length := List.mem_range.mp hq
    have hqp : q = p := congrArg Prod.fst hqe
    subst hqp
    refine ⟨(construct_fields clock 0 F.all_fields_t)[q], List.getElem?_eq_getElem hq2, ?_⟩
    have := congrArg Prod.snd hqe
    simp only [cursors_at, List.getElem?_eq_getElem hq2] at this
    exact this.symm
  refine ⟨_, hcur, hlen.1, ?_, ?_, ?_, ?_, ?_⟩
  · rw [List.map_map, hn]
    exact List.map_id _
  · intro p J hpJ
    obtain ⟨e, he, hc⟩ := hmem p (some J) hpJ
    by_cases hb : is_base_of_runtime_field e.kind = true
    · simp only [hb, if_true, Option.some.injEq] at hc
      have hlt := dynamic_index_lt _ p e he hb
      have hT := getElem?_construct_fields clock F.all_fields_t p e he
      refine ⟨by omega, e.kind, hT, ?_, by
        simp [field_filter_predicate_1, field_filter_predicate_2, is_base_of_field, hb]⟩
      rw [hc, dynamic_index_construct_fields, format.runtime_fields_t,
        field_filter_type_eq_filter]
      exact getElem?_filter_countP_take is_base_of_runtime_field _ p e.kind hT hb
    · simp [hb] at hc
  · intro p hp
    obtain ⟨e, he, hc⟩ := hmem p none hp
    by_cases hb : is_base_of_runtime_field e.kind = true
    · simp [hb] at hc
    · exact ⟨e.kind, getElem?_construct_fields clock F.all_fields_t p e he, by
        simpa [field_filter_predicate_1, field_filter_predicate_2, is_base_of_field] using hb⟩
  · rw [List.filterMap_map]
    have := filterMap_cursors_range (construct_fields clock 0 F.all_fields_t)
      (construct_fields clock 0 F.all_fields_t).length (Nat.le_refl _)
    rw [hlen.2] at this
    exact this
  · intro f st
    unfold for_each_field
    rw [for_each_field_from_eq_cursors, hcur]
    rfl

/-- C15 on the format [literal id, number, separator, runtime text] with the values 42 and
hello: the cursors are (0, -), (1, 0), (2, -), (3, 1) and the value cursor ends at 2. -/
theorem merge_walk_cursors_agree_with_partition_witness :
    make_runtime_fields (format.mk (Kind.text "id") [Kind.number, Kind.separator ':', Kind.text_void]).runtime_fields_t [argument.long 42, argument.c_string "hello"] = some [field.number 42, field.text_void "hello"] ∧
    (∃ trace : List (Nat × Option Nat),
      for_each_field_cursors (construct_fields (fun _ => "") 0 (format.mk (Kind.text "id") [Kind.number, Kind.separator ':', Kind.text_void]).all_fields_t) [field.number 42, field.text_void "hello"]
        (construct_fields (fun _ => "") 0 (format.mk (Kind.text "id") [Kind.number, Kind.separator ':', Kind.text_void]).all_fields_t).length 0 0
          = some (trace, [field.number 42, field.text_void "hello"].length) ∧
      [field.number 42, field.text_void "hello"].length = (format.mk (Kind.text "id") [Kind.number, Kind.separator ':', Kind.text_void]).runtime_fields_t.length ∧
      trace.map Prod.fst = List.range (format.mk (Kind.text "id") [Kind.number, Kind.separator ':', Kind.text_void]).all_fields_t.length ∧
      (∀ (p J : Nat), (p, some J) ∈ trace →
        J < [field.number 42, field.text_void "hello"].length ∧
        ∃ T, (format.mk (Kind.text "id") [Kind.number, Kind.separator ':', Kind.text_void]).all_fields_t[p]? = some T ∧ (format.mk (Kind.text "id") [Kind.number, Kind.separator ':', Kind.text_void]).runtime_fields_t[J]? = some T ∧
          (field_filter_predicate_1 T && field_filter_predicate_2 T) = true) ∧
      (∀ p : Nat, (p, none) ∈ trace →
        ∃ T, (format.mk (Kind.text "id") [Kind.number, Kind.separator ':', Kind.text_void]).all_fields_t[p]? = some T ∧
          (field_filter_predicate_1 T && field_filter_predicate_2 T) = false) ∧
      trace.filterMap Prod.snd = List.range [field.number 42, field.text_void "hello"].length ∧
      (∀ (f : ostream → field → ostream) (st : ostream),
        for_each_field (construct_fields (fun _ => "") 0 (format.mk (Kind.text "id") [Kind.number, Kind.separator ':', Kind.text_void]).all_fields_t) [field.number 42, field.text_void "hello"] f st
          = some ((trace.filterMap
              (visited_field (construct_fields (fun _ => "") 0 (format.mk (Kind.text "id") [Kind.number, Kind.separator ':', Kind.text_void]).all_fields_t)
                [field.number 42, field.text_void "hello"])).foldl f st))) ∧
    for_each_field_cursors (construct_fields (fun _ => "") 0 (format.mk (Kind.text "id") [Kind.number, Kind.separator ':', Kind.text_void]).all_fields_t) [field.number 42, field.text_void "hello"]
        (construct_fields (fun _ => "") 0 (format.mk (Kind.text "id") [Kind.number, Kind.separator ':', Kind.text_void]).all_fields_t).length 0 0
      = some ([(0, none), (1, some 0), (2, none), (3, some 1)], 2) :=
  ⟨by decide,
    merge_walk_cursors_agree_with_partition (fun _ => "") (format.mk (Kind.text "id") [Kind.number, Kind.separator ':', Kind.text_void]) [argument.long 42, argument.c_string "hello"] [field.number 42, field.text_void "hello"] (by decide),
    by decide⟩

/-- C16, on the format [literal x, aligned width (5, right)]: the first call returns x and
leaves the width 5 pending on the stream of the instantiation; the second call, with the
same format, values and registry, runs on that stream and returns x after four spaces. -/
theorem add_line_depends_on_earlier_call :
    ((log.mk []).add ostream.fresh [] (fun _ => "")
        (format.mk (Kind.text "x") [Kind.width 5 align.side.right]) []).map add_result.ln
      = some "x" ∧
    ((log.mk []).add ostream.fresh [] (fun _ => "")
        (format.mk (Kind.text "x") [Kind.width 5 align.side.right]) []).map
        (fun r => r.ss.width) = some 5 ∧
    (((log.mk []).add ostream.fresh [] (fun _ => "")
        (format.mk (Kind.text "x") [Kind.width 5 align.side.right]) []).bind
      (fun r => r.self.add r.ss r.field_list (fun _ => "")
        (format.mk (Kind.text "x") [Kind.width 5 align.side.right]) [])).map add_result.ln
      = some "    x" := by
  decide

end logsaw
